import Mathlib

/-!
Verification of the DMusicPak container codec (src/src/io.cpp, src/src/dmusicpak.cpp,
src/include/dmusicpak/dmusicpak.h).

Shallow embedding conventions:
- a C byte buffer is a `List Nat` (each element one byte); reading `buffer[i]`
  is `byteAt`, which models the value found in memory at that index (reads past
  the end of the list return the arbitrary-memory placeholder 0);
- a C string (`char*`) is `Option (List Nat)`: `none` for NULL, `some s` for a
  NUL-terminated string with content bytes `s`;
- an owned byte payload pointer is `Option (List Nat)` (`none` for NULL);
- unsigned C arithmetic is Nat arithmetic with explicit `% 2^32` / `% 2^64`
  where the C types truncate or wrap;
- `malloc` is assumed to succeed except where an operation is explicitly
  parameterized by an allocation outcome (`allocOk`), matching the spec
  treatment of claims "modulo allocation failure".
-/

namespace DMusicPak

/-! ## Data model (src/include/dmusicpak/dmusicpak.h, src/src/internal.h) -/

/-- dmusicpak_metadata_t: six optional C strings plus four numeric fields
(uint32 duration_ms, bitrate, sample_rate; uint16 channels). -/
structure Metadata where
  title : Option (List Nat)
  artist : Option (List Nat)
  album : Option (List Nat)
  genre : Option (List Nat)
  year : Option (List Nat)
  comment : Option (List Nat)
  duration_ms : Nat
  bitrate : Nat
  sample_rate : Nat
  channels : Nat
  deriving DecidableEq

/-- dmusicpak_lyrics_t: format tag, payload pointer, payload size. -/
structure Lyrics where
  format : Nat
  data : Option (List Nat)
  size : Nat
  deriving DecidableEq

/-- dmusicpak_audio_t: format tag (in-memory only), source filename, payload. -/
structure Audio where
  format : Nat
  source_filename : Option (List Nat)
  data : Option (List Nat)
  size : Nat
  deriving DecidableEq

/-- dmusicpak_cover_t: format tag, payload, pixel width and height. -/
structure Cover where
  format : Nat
  data : Option (List Nat)
  size : Nat
  width : Nat
  height : Nat
  deriving DecidableEq

/-- struct dmusicpak_package (src/src/internal.h): four sections plus four
presence flags (C ints 0/1, modeled as Bool). -/
structure Package where
  metadata : Metadata
  lyrics : Lyrics
  audio : Audio
  cover : Cover
  has_metadata : Bool
  has_lyrics : Bool
  has_audio : Bool
  has_cover : Bool
  deriving DecidableEq

/-- dmusicpak_create (src/src/dmusicpak.cpp:75): calloc zeroes everything:
all flags clear, all pointers NULL, all numeric fields 0. -/
def dmusicpak_create : Package :=
  { metadata := { title := none, artist := none, album := none, genre := none
                  year := none, comment := none
                  duration_ms := 0, bitrate := 0, sample_rate := 0, channels := 0 }
    lyrics := { format := 0, data := none, size := 0 }
    audio := { format := 0, source_filename := none, data := none, size := 0 }
    cover := { format := 0, data := none, size := 0, width := 0, height := 0 }
    has_metadata := false, has_lyrics := false, has_audio := false
    has_cover := false }

/-! ## Byte-level primitives (src/src/dmusicpak.cpp:34-55) -/

/-- Value of the byte at index `i` of a buffer. Past the end of the modeled
allocation this returns the placeholder 0 (the C code would read whatever the
adjacent memory holds; theorems about in-bounds behavior never depend on it). -/
def byteAt (d : List Nat) (i : Nat) : Nat := d.getD i 0

/-- memcpy of `n` bytes out of buffer `d` starting at index `off`,
byte by byte. -/
def bytesAt : List Nat → Nat → Nat → List Nat
  | _, _, 0 => []
  | d, off, n + 1 => byteAt d off :: bytesAt d (off + 1) n

/-- memcpy of `n` bytes out of an allocation holding exactly the bytes `d`
(reads past the allocation yield the placeholder 0), used where the C code
copies from a section payload pointer. -/
def takeN (d : List Nat) (n : Nat) : List Nat :=
  d.take n ++ List.replicate (n - d.length) 0

/-- strlen of an optional C string. -/
def optLen : Option (List Nat) → Nat
  | none => 0
  | some s => s.length

/-- write_uint32_le (src/src/dmusicpak.cpp:34): four little-endian bytes of the
low 32 bits of `value`. -/
def write_uint32_le (value : Nat) : List Nat :=
  [value % 256, value / 256 % 256, value / 65536 % 256, value / 16777216 % 256]

/-- write_uint16_le (src/src/dmusicpak.cpp:48). -/
def write_uint16_le (value : Nat) : List Nat :=
  [value % 256, value / 256 % 256]

/-- read_uint32_le (src/src/dmusicpak.cpp:41): little-endian recombination
(the C bitwise-or of disjoint shifted bytes is addition). -/
def read_uint32_le (d : List Nat) (off : Nat) : Nat :=
  byteAt d off + 256 * byteAt d (off + 1) + 65536 * byteAt d (off + 2)
    + 16777216 * byteAt d (off + 3)

/-- read_uint16_le (src/src/dmusicpak.cpp:53). -/
def read_uint16_le (d : List Nat) (off : Nat) : Nat :=
  byteAt d off + 256 * byteAt d (off + 1)

/-! ## Primitive field codec (src/src/io.cpp:36-64) -/

/-- write_string (src/src/io.cpp:36): 4-byte length prefix then the raw bytes.
NULL writes length 0 and nothing else. `(uint32_t)strlen(str)` truncates the
length to 32 bits, so only the truncated count of bytes is copied. -/
def write_string : Option (List Nat) → List Nat
  | none => write_uint32_le 0
  | some s => write_uint32_le s.length ++ s.take (s.length % 4294967296)

/-- read_string (src/src/io.cpp:51): reads the 4-byte length; length 0 yields
NULL and consumes 4 bytes; otherwise copies exactly `len` bytes starting 4
past `off` — with no check whatsoever against the remaining buffer size —
and consumes `4 + len` bytes. Returns (bytes consumed, string). malloc is
assumed to succeed (the C code returns 0 consumed on allocation failure). -/
def read_string (d : List Nat) (off : Nat) : Nat × Option (List Nat) :=
  let len := read_uint32_le d off
  if len = 0 then (4, none) else (4 + len, some (bytesAt d (off + 4) len))

/-! ## Metadata chunk codec (src/src/io.cpp:67-123) -/

/-- calculate_metadata_size (src/src/io.cpp:67): six length-prefixed strings
plus 4+4+4+2 fixed bytes. -/
def calculate_metadata_size (m : Metadata) : Nat :=
  (4 + optLen m.title) + (4 + optLen m.artist) + (4 + optLen m.album)
    + (4 + optLen m.genre) + (4 + optLen m.year) + (4 + optLen m.comment)
    + (4 + 4 + 4 + 2)

/-- write_metadata_chunk (src/src/io.cpp:80): six strings in fixed order, then
duration_ms, bitrate, sample_rate (u32) and channels (u16). -/
def write_metadata_chunk (m : Metadata) : List Nat :=
  write_string m.title ++ write_string m.artist ++ write_string m.album
    ++ write_string m.genre ++ write_string m.year ++ write_string m.comment
    ++ write_uint32_le m.duration_ms ++ write_uint32_le m.bitrate
    ++ write_uint32_le m.sample_rate ++ write_uint16_le m.channels

/-- read_metadata_chunk (src/src/io.cpp:103): sequential unchecked reads of the
six strings and the four numeric fields. Returns (bytes consumed, metadata). -/
def read_metadata_chunk (d : List Nat) (off : Nat) : Nat × Metadata :=
  let r1 := read_string d off
  let r2 := read_string d (off + r1.1)
  let r3 := read_string d (off + r1.1 + r2.1)
  let r4 := read_string d (off + r1.1 + r2.1 + r3.1)
  let r5 := read_string d (off + r1.1 + r2.1 + r3.1 + r4.1)
  let r6 := read_string d (off + r1.1 + r2.1 + r3.1 + r4.1 + r5.1)
  let o := off + r1.1 + r2.1 + r3.1 + r4.1 + r5.1 + r6.1
  (r1.1 + r2.1 + r3.1 + r4.1 + r5.1 + r6.1 + 14,
   { title := r1.2, artist := r2.2, album := r3.2, genre := r4.2,
     year := r5.2, comment := r6.2,
     duration_ms := read_uint32_le d o,
     bitrate := read_uint32_le d (o + 4),
     sample_rate := read_uint32_le d (o + 8),
     channels := read_uint16_le d (o + 12) })

/-! ## Encoding (dmusicpak_save_memory, src/src/io.cpp:146-237)

The C code computes the total size, allocates one buffer and writes the pieces
at a running offset; writing consecutive regions of a fresh buffer is list
concatenation. -/

/-- Metadata chunk: type byte 1, u32 chunk size, body (src/src/io.cpp:187). -/
def metaChunkBytes (m : Metadata) : List Nat :=
  1 :: (write_uint32_le (calculate_metadata_size m) ++ write_metadata_chunk m)

/-- Lyrics chunk: type byte 2, u32 chunk size `4 + size`, u32 format, payload
bytes (src/src/io.cpp:196). -/
def lyricsChunkBytes (l : Lyrics) : List Nat :=
  2 :: (write_uint32_le (4 + l.size) ++ write_uint32_le l.format
        ++ takeN (l.data.getD []) l.size)

/-- Audio chunk: type byte 3, u32 chunk size `4 + filename length + size`,
length-prefixed filename, payload bytes (src/src/io.cpp:208). The in-memory
format tag is not written. -/
def audioChunkBytes (a : Audio) : List Nat :=
  3 :: (write_uint32_le (4 + optLen a.source_filename + a.size)
        ++ write_string a.source_filename ++ takeN (a.data.getD []) a.size)

/-- Cover chunk: type byte 4, u32 chunk size `12 + size`, u32 format, width,
height, payload bytes (src/src/io.cpp:220). -/
def coverChunkBytes (c : Cover) : List Nat :=
  4 :: (write_uint32_le (12 + c.size) ++ write_uint32_le c.format
        ++ write_uint32_le c.width ++ write_uint32_le c.height
        ++ takeN (c.data.getD []) c.size)

/-- Number of chunks written: count of set presence flags
(src/src/io.cpp:151-170). -/
def numChunks (p : Package) : Nat :=
  (if p.has_metadata then 1 else 0) + (if p.has_lyrics then 1 else 0)
    + (if p.has_audio then 1 else 0) + (if p.has_cover then 1 else 0)

/-- dmusicpak_save_memory (src/src/io.cpp:146): magic "DMPK" (bytes 68 77 80
75), u32 version 1, u32 chunk count, then the present chunks in the fixed
order metadata, lyrics, audio, cover. The returned size is the list length. -/
def dmusicpak_save_memory (p : Package) : List Nat :=
  [68, 77, 80, 75] ++ write_uint32_le 1 ++ write_uint32_le (numChunks p)
    ++ (if p.has_metadata then metaChunkBytes p.metadata else [])
    ++ (if p.has_lyrics then lyricsChunkBytes p.lyrics else [])
    ++ (if p.has_audio then audioChunkBytes p.audio else [])
    ++ (if p.has_cover then coverChunkBytes p.cover else [])

/-! ## Decoding (dmusicpak_load_memory, src/src/io.cpp:276-355) -/

/-- One iteration body of the chunk switch (src/src/io.cpp:304-349): `off` is
the offset just past the 5-byte chunk header, `cs` the declared chunk size,
`ct` the type byte. Unknown types fall through to the default (no effect).
The u32/size_t subtractions `cs - 4`, `cs - str_offset`, `cs - 12` wrap. -/
def applyChunk (d : List Nat) (off cs ct : Nat) (p : Package) : Package :=
  if ct = 1 then
    { p with metadata := (read_metadata_chunk d off).2, has_metadata := true }
  else if ct = 2 then
    let fmt := read_uint32_le d off
    let lsize := (cs + 4294967296 - 4) % 4294967296
    if 0 < lsize then
      { p with lyrics := { format := fmt, size := lsize
                           data := some (bytesAt d (off + 4) lsize) }
               has_lyrics := true }
    else
      { p with lyrics := { p.lyrics with format := fmt, size := lsize } }
  else if ct = 3 then
    let r := read_string d off
    let asize := (cs + 18446744073709551616 - r.1) % 18446744073709551616
    if 0 < asize then
      { p with audio := { p.audio with
                          source_filename := r.2
                          size := asize
                          data := some (bytesAt d (off + r.1) asize) }
               has_audio := true }
    else
      { p with audio := { p.audio with source_filename := r.2, size := asize } }
  else if ct = 4 then
    let fmt := read_uint32_le d off
    let w := read_uint32_le d (off + 4)
    let h := read_uint32_le d (off + 8)
    let csize := (cs + 4294967296 - 12) % 4294967296
    if 0 < csize then
      { p with cover := { format := fmt, width := w, height := h, size := csize
                          data := some (bytesAt d (off + 12) csize) }
               has_cover := true }
    else
      { p with cover := { p.cover with
                          format := fmt, width := w, height := h
                          size := csize } }
  else p

/-- The chunk loop (src/src/io.cpp:295-352), recursing on the remaining
iteration count `num_chunks - i`: stop when the count is exhausted, when
`offset < size` fails, when fewer than 5 header bytes remain, or when the
declared chunk size does not fit in the remaining buffer. -/
def readChunks (d : List Nat) (size : Nat) : Nat → Nat → Package → Package
  | 0, _, p => p
  | n + 1, off, p =>
    if off < size then
      if off + 5 > size then p
      else
        let ct := byteAt d off
        let cs := read_uint32_le d (off + 1)
        if off + 5 + cs > size then p
        else readChunks d size n (off + 5 + cs) (applyChunk d (off + 5) cs ct p)
    else p

/-- dmusicpak_load_memory (src/src/io.cpp:276): NULL unless the buffer holds
at least the 12-byte header, starts with "DMPK" and declares version 1;
otherwise a fresh package populated by the chunk loop. -/
def dmusicpak_load_memory (d : List Nat) (size : Nat) : Option Package :=
  if size < 12 then none
  else if byteAt d 0 = 68 ∧ byteAt d 1 = 77 ∧ byteAt d 2 = 80 ∧ byteAt d 3 = 75 then
    if read_uint32_le d 4 = 1 then
      some (readChunks d size (read_uint32_le d 8) 12 dmusicpak_create)
    else none
  else none

/-! ## Package mutators (src/src/dmusicpak.cpp:138-228)

Each setter frees the previous section content first (dmusicpak_free_lyrics /
free_audio / free_cover memset the struct to zero), then copies fields, then
allocates the payload copy. `allocOk` is the outcome of that single malloc;
error codes follow the C enum (0 = OK, -4 = MEMORY_ALLOC). -/

/-- dmusicpak_set_lyrics (src/src/dmusicpak.cpp:138). Returns (error, package
state after the call). On allocation failure the old payload has already been
released and the fields already overwritten. -/
def dmusicpak_set_lyrics (allocOk : Bool) (p : Package) (l : Lyrics) : Int × Package :=
  let base := { p with lyrics := { format := l.format, data := none, size := l.size } }
  if l.data.isSome ∧ 0 < l.size then
    if allocOk then
      (0, { base with lyrics := { base.lyrics with data := some (takeN (l.data.getD []) l.size) }
                      has_lyrics := true })
    else (-4, base)
  else (0, { base with has_lyrics := true })

/-- dmusicpak_set_audio (src/src/dmusicpak.cpp:174); `str_dup` of the filename
is also assumed to succeed. -/
def dmusicpak_set_audio (allocOk : Bool) (p : Package) (a : Audio) : Int × Package :=
  let base := { p with audio := { format := 0
                                  source_filename := a.source_filename
                                  data := none, size := a.size } }
  if a.data.isSome ∧ 0 < a.size then
    if allocOk then
      (0, { base with audio := { base.audio with data := some (takeN (a.data.getD []) a.size) }
                      has_audio := true })
    else (-4, base)
  else (0, { base with has_audio := true })

/-- dmusicpak_get_audio_chunk (src/src/dmusicpak.cpp:276): -1 when no audio
section, 0 bytes at or past the end, otherwise a clamped copy. Returns
(return code, bytes copied into the caller buffer). -/
def dmusicpak_get_audio_chunk (p : Package) (off sz : Nat) : Int × List Nat :=
  if p.has_audio = false then (-1, [])
  else if p.audio.size ≤ off then (0, [])
  else
    let to_read := if p.audio.size < off + sz then p.audio.size - off else sz
    ((to_read : Nat), takeN ((p.audio.data.getD []).drop off) to_read)

/-- The while loop of dmusicpak_stream_audio (src/src/dmusicpak.cpp:261-271),
returning the list of slices passed to the callback, in call order. The
callback is modeled as a function of the bytes it receives (the C callback
also gets the byte count, recoverable as the slice length, and the constant
userdata). The loop advances by the callback return value and stops when it
returns 0, i.e. by at least 1 per iteration while `offset < payload.length`,
so `payload.length - offset` bounds the remaining iteration count; `fuel` is
that structural bound, not a source quantity. -/
def streamLoop (payload : List Nat) (cb : List Nat → Nat) : Nat → Nat → List (List Nat)
  | _, 0 => []
  | offset, fuel + 1 =>
    if offset < payload.length then
      let to_read := if payload.length < offset + 8192 then payload.length - offset else 8192
      let slice := (payload.drop offset).take to_read
      let written := cb slice
      if written = 0 then [slice]
      else slice :: streamLoop payload cb (offset + written) fuel
    else []

/-- dmusicpak_stream_audio (src/src/dmusicpak.cpp:250): -6 (NOT_SUPPORTED)
without an audio section, otherwise 0 (OK) always; second component is the
trace of slices passed to the callback. The payload region is the
`audio.size` bytes at the payload pointer. -/
def dmusicpak_stream_audio (p : Package) (cb : List Nat → Nat) : Int × List (List Nat) :=
  if p.has_audio = false then (-6, [])
  else
    let payload := takeN (p.audio.data.getD []) p.audio.size
    (0, streamLoop payload cb 0 payload.length)

/-! ## Specification-side definitions

These are not translations of source functions; they are the vocabulary in
which the claims are stated and the decode result of an encoded package is
described. -/

/-- Encoding collapses NULL and the empty string (both become length 0), and
decoding length 0 yields NULL: the round trip normalizes `some []` to `none`. -/
def normStr : Option (List Nat) → Option (List Nat)
  | some [] => none
  | s => s

/-- The metadata record produced by decoding an encoded metadata chunk:
strings normalized, numeric fields reduced to their C type width. -/
def decodedMeta (m : Metadata) : Metadata :=
  { title := normStr m.title, artist := normStr m.artist, album := normStr m.album
    genre := normStr m.genre, year := normStr m.year, comment := normStr m.comment
    duration_ms := m.duration_ms % 4294967296
    bitrate := m.bitrate % 4294967296
    sample_rate := m.sample_rate % 4294967296
    channels := m.channels % 65536 }

/-- One present section, in the sum-type view the spec suggests. -/
inductive Sect
  | md (m : Metadata)
  | ly (l : Lyrics)
  | au (a : Audio)
  | cv (c : Cover)
  deriving DecidableEq

/-- The chunk bytes a section contributes to the encoded buffer. -/
def sectBytes : Sect → List Nat
  | .md m => metaChunkBytes m
  | .ly l => lyricsChunkBytes l
  | .au a => audioChunkBytes a
  | .cv c => coverChunkBytes c

/-- The effect on the package under construction of decoding the chunk a
well-formed section encodes (mirrors `applyChunk` on that chunk). -/
def sectDecode (s : Sect) (p : Package) : Package :=
  match s with
  | .md m => { p with metadata := decodedMeta m, has_metadata := true }
  | .ly l =>
    if 0 < l.size then
      { p with lyrics := { format := l.format % 4294967296, size := l.size
                           data := some (l.data.getD []) }
               has_lyrics := true }
    else
      { p with lyrics := { p.lyrics with format := l.format % 4294967296, size := l.size } }
  | .au a =>
    if 0 < a.size then
      { p with audio := { p.audio with
                          source_filename := normStr a.source_filename
                          size := a.size
                          data := some (a.data.getD []) }
               has_audio := true }
    else
      { p with audio := { p.audio with
                          source_filename := normStr a.source_filename
                          size := a.size } }
  | .cv c =>
    if 0 < c.size then
      { p with cover := { format := c.format % 4294967296
                          width := c.width % 4294967296
                          height := c.height % 4294967296
                          size := c.size, data := some (c.data.getD []) }
               has_cover := true }
    else
      { p with cover := { p.cover with
                          format := c.format % 4294967296
                          width := c.width % 4294967296
                          height := c.height % 4294967296
                          size := c.size } }

/-- The present sections of a package, in the fixed encode order. -/
def sectsOf (p : Package) : List Sect :=
  (if p.has_metadata then [Sect.md p.metadata] else [])
    ++ (if p.has_lyrics then [Sect.ly p.lyrics] else [])
    ++ (if p.has_audio then [Sect.au p.audio] else [])
    ++ (if p.has_cover then [Sect.cv p.cover] else [])

/-- Concatenated chunk bytes of a section list. -/
def joinBytes (ss : List Sect) : List Nat := (ss.map sectBytes).flatten

/-- The package a full decode of the encoding reconstructs. -/
def decodeExpected (p : Package) : Package :=
  (sectsOf p).foldl (fun q s => sectDecode s q) dmusicpak_create

/-- The longest initial run of sections whose chunks, laid out consecutively
from offset `off`, end at or before index `k`: the sections whose chunks lie
entirely within the first `k` bytes of the encoding. -/
def fitSects (k : Nat) : Nat → List Sect → List Sect
  | _, [] => []
  | off, s :: ss =>
    if off + (sectBytes s).length ≤ k then s :: fitSects k (off + (sectBytes s).length) ss
    else []

/-- The package decoded from the encoding truncated to its first `k` bytes. -/
def truncExpected (p : Package) (k : Nat) : Package :=
  (fitSects k 12 (sectsOf p)).foldl (fun q s => sectDecode s q) dmusicpak_create

/-- Partition of a list into consecutive 8192-byte slices, the last one
possibly shorter; `fuel` is a structural recursion bound (the list length
suffices since every step removes at least one element). -/
def slicesAux : Nat → List Nat → List (List Nat)
  | 0, _ => []
  | _, [] => []
  | fuel + 1, l => l.take 8192 :: slicesAux fuel (l.drop 8192)

/-- Partition of a payload into consecutive 8192-byte slices. -/
def slices8192 (l : List Nat) : List (List Nat) := slicesAux l.length l

/-! ### Well-formedness of in-memory packages

`Wf*` captures what is true of every package a C caller can hold: numeric
fields fit their C types, string lengths and section sizes fit the 32-bit
wire length fields, and a section payload pointer addresses exactly `size`
bytes. -/

/-- Metadata whose fields fit their C types and whose chunk fits a u32 size. -/
@[reducible] def WfMeta (m : Metadata) : Prop :=
  optLen m.title < 4294967296 ∧ optLen m.artist < 4294967296
    ∧ optLen m.album < 4294967296 ∧ optLen m.genre < 4294967296
    ∧ optLen m.year < 4294967296 ∧ optLen m.comment < 4294967296
    ∧ calculate_metadata_size m < 4294967296
    ∧ m.duration_ms < 4294967296 ∧ m.bitrate < 4294967296
    ∧ m.sample_rate < 4294967296 ∧ m.channels < 65536

/-- Lyrics section whose chunk size fits a u32 and whose payload pointer
holds exactly `size` bytes. -/
@[reducible] def WfLyrics (l : Lyrics) : Prop :=
  4 + l.size < 4294967296 ∧ (l.data.getD []).length = l.size ∧ l.format < 4294967296

/-- Audio section whose chunk size fits a u32 and whose payload pointer
holds exactly `size` bytes. -/
@[reducible] def WfAudio (a : Audio) : Prop :=
  4 + optLen a.source_filename + a.size < 4294967296
    ∧ (a.data.getD []).length = a.size

/-- Cover section whose chunk size fits a u32 and whose payload pointer
holds exactly `size` bytes. -/
@[reducible] def WfCover (c : Cover) : Prop :=
  12 + c.size < 4294967296 ∧ (c.data.getD []).length = c.size
    ∧ c.format < 4294967296 ∧ c.width < 4294967296 ∧ c.height < 4294967296

/-- Section well-formedness. -/
@[reducible] def Sect.Wf : Sect → Prop
  | .md m => WfMeta m
  | .ly l => WfLyrics l
  | .au a => WfAudio a
  | .cv c => WfCover c

/-- Well-formedness of the sections a package presents (absent sections are
never read by the encoder). -/
@[reducible] def WfPackage (p : Package) : Prop :=
  (p.has_metadata = true → WfMeta p.metadata)
    ∧ (p.has_lyrics = true → WfLyrics p.lyrics)
    ∧ (p.has_audio = true → WfAudio p.audio)
    ∧ (p.has_cover = true → WfCover p.cover)

/-- Additional conditions under which the decode of the encoding reproduces
the package exactly (up to the audio format tag): present payloads nonempty,
present strings NULL or nonempty. -/
@[reducible] def ExactPackage (p : Package) : Prop :=
  (p.has_metadata = true →
    p.metadata.title ≠ some [] ∧ p.metadata.artist ≠ some []
      ∧ p.metadata.album ≠ some [] ∧ p.metadata.genre ≠ some []
      ∧ p.metadata.year ≠ some [] ∧ p.metadata.comment ≠ some [])
    ∧ (p.has_lyrics = true → 0 < p.lyrics.size)
    ∧ (p.has_audio = true → 0 < p.audio.size ∧ p.audio.source_filename ≠ some [])
    ∧ (p.has_cover = true → 0 < p.cover.size)

/-- Is this section a metadata section (decoding one always sets the flag)? -/
def isMd : Sect → Bool
  | .md _ => true
  | _ => false

/-- Is this a lyrics section whose decoding sets the presence flag? -/
def isLyPos : Sect → Bool
  | .ly l => decide (0 < l.size)
  | _ => false

/-- Is this an audio section whose decoding sets the presence flag? -/
def isAuPos : Sect → Bool
  | .au a => decide (0 < a.size)
  | _ => false

/-- Is this a cover section whose decoding sets the presence flag? -/
def isCvPos : Sect → Bool
  | .cv c => decide (0 < c.size)
  | _ => false

/-- Is this section a lyrics section? -/
def isLy : Sect → Bool
  | .ly _ => true
  | _ => false

/-- Is this section an audio section? -/
def isAu : Sect → Bool
  | .au _ => true
  | _ => false

/-- Is this section a cover section? -/
def isCv : Sect → Bool
  | .cv _ => true
  | _ => false

/-- Nonempty payloads for the truncation claim. -/
@[reducible] def NonemptyPayloads (p : Package) : Prop :=
  (p.has_lyrics = true → 0 < p.lyrics.size)
    ∧ (p.has_audio = true → 0 < p.audio.size)
    ∧ (p.has_cover = true → 0 < p.cover.size)

/-! ## Concrete inputs used in counterexamples and witnesses -/

/-- A 17-byte buffer: valid header ("DMPK", version 1, 1 chunk) followed by a
metadata chunk whose declared size is 0, so its body starts exactly at the end
of the buffer and every byte the metadata decoder reads is out of bounds. -/
def oobData1 : List Nat := [68, 77, 80, 75, 1, 0, 0, 0, 1, 0, 0, 0, 1, 0, 0, 0, 0]

/-- The same 17 declared bytes, but with memory beyond the buffer end holding
a 7 at index 41 (the position the metadata decoder reads duration_ms from). -/
def oobData2 : List Nat :=
  oobData1 ++ [0, 0, 0, 0, 0, 0, 0, 0, 0, 0, 0, 0, 0, 0, 0, 0, 0, 0, 0, 0, 0, 0, 0, 0, 7]

/-- A package exercising the three round-trip failure modes at once: an empty
(non-NULL) metadata title, a present lyrics section with an empty payload, and
an audio section with a nonzero format tag. -/
def cexPackage : Package :=
  { dmusicpak_create with
    metadata := { dmusicpak_create.metadata with title := some [] }
    lyrics := { format := 1, data := none, size := 0 }
    audio := { format := 1, source_filename := none, data := some [7], size := 1 }
    has_metadata := true, has_lyrics := true, has_audio := true }

/-- A fully populated well-formed package for witnesses. -/
def wPackage : Package :=
  { metadata := { title := some [72, 105], artist := none, album := some [65]
                  genre := none, year := some [50, 48], comment := none
                  duration_ms := 180000, bitrate := 320, sample_rate := 44100
                  channels := 2 }
    lyrics := { format := 1, data := some [10, 11, 12], size := 3 }
    audio := { format := 5, source_filename := some [97, 46, 109]
               data := some [1, 2], size := 2 }
    cover := { format := 2, data := some [9], size := 1, width := 4, height := 6 }
    has_metadata := true, has_lyrics := true, has_audio := true, has_cover := true }

/-- A buffer with two lyrics chunks: the first carries a 1-byte payload, the
second declares length exactly 4 (empty payload). -/
def dupLyricsData : List Nat :=
  [68, 77, 80, 75, 1, 0, 0, 0, 2, 0, 0, 0]
    ++ (2 :: ([5, 0, 0, 0] ++ ([0, 0, 0, 0] ++ [170])))
    ++ (2 :: ([4, 0, 0, 0] ++ [0, 0, 0, 0]))

/-- A package holding a 2-byte audio payload. -/
def sPackage : Package :=
  { dmusicpak_create with
    audio := { format := 0, source_filename := none, data := some [10, 20], size := 2 }
    has_audio := true }

/-- A callback that always reports having consumed exactly one byte. -/
def cbOne : List Nat → Nat := fun _ => 1

/-- A package holding a 10-byte audio payload. -/
def aPackage : Package :=
  { dmusicpak_create with
    audio := { format := 0, source_filename := none
               data := some [0, 1, 2, 3, 4, 5, 6, 7, 8, 9], size := 10 }
    has_audio := true }

/-- A package holding an existing 3-byte lyrics payload. -/
def lPackage : Package :=
  { dmusicpak_create with
    lyrics := { format := 2, data := some [1, 2, 3], size := 3 }
    has_lyrics := true }

/-- A package with a present empty-payload lyrics section followed by a
nonempty cover section (for the truncation counterexample). -/
def zPackage : Package :=
  { dmusicpak_create with
    lyrics := { format := 1, data := none, size := 0 }
    cover := { format := 2, data := some [9], size := 1, width := 3, height := 4 }
    has_lyrics := true, has_cover := true }

/-- A well-formed package with nonempty lyrics and cover payloads (for the
truncation witness). -/
def tPackage : Package :=
  { dmusicpak_create with
    lyrics := { format := 1, data := some [7], size := 1 }
    cover := { format := 2, data := some [9], size := 1, width := 3, height := 4 }
    has_lyrics := true, has_cover := true }

/-! ## Byte-level lemmas -/

theorem length_write_uint32_le (n : Nat) : (write_uint32_le n).length = 4 := rfl

theorem length_write_uint16_le (n : Nat) : (write_uint16_le n).length = 2 := rfl

theorem takeN_length (d : List Nat) (n : Nat) : (takeN d n).length = n := by
  simp [takeN]
  omega

theorem takeN_of_length_eq {d : List Nat} {n : Nat} (h : d.length = n) : takeN d n = d := by
  simp [takeN, ← h, List.take_length]

theorem byteAt_append_right (a b : List Nat) (i : Nat) :
    byteAt (a ++ b) (a.length + i) = byteAt b i := by
  unfold byteAt
  rw [List.getD_append_right _ _ _ _ (Nat.le_add_right _ _)]
  simp

theorem byteAt_seg (a c b : List Nat) (i : Nat) (h : i < c.length) :
    byteAt (a ++ (c ++ b)) (a.length + i) = byteAt c i := by
  rw [byteAt_append_right]
  unfold byteAt
  rw [List.getD_append _ _ _ _ h]

theorem read_uint32_le_after (a b : List Nat) (n : Nat) :
    read_uint32_le (a ++ (write_uint32_le n ++ b)) a.length = n % 4294967296 := by
  have h0 : byteAt (a ++ (write_uint32_le n ++ b)) a.length = n % 256 := by
    simpa using byteAt_seg a (write_uint32_le n) b 0 (by simp [write_uint32_le])
  have h1 : byteAt (a ++ (write_uint32_le n ++ b)) (a.length + 1) = n / 256 % 256 := by
    simpa using byteAt_seg a (write_uint32_le n) b 1 (by simp [write_uint32_le])
  have h2 : byteAt (a ++ (write_uint32_le n ++ b)) (a.length + 2) = n / 65536 % 256 := by
    simpa using byteAt_seg a (write_uint32_le n) b 2 (by simp [write_uint32_le])
  have h3 : byteAt (a ++ (write_uint32_le n ++ b)) (a.length + 3) = n / 16777216 % 256 := by
    simpa using byteAt_seg a (write_uint32_le n) b 3 (by simp [write_uint32_le])
  unfold read_uint32_le
  rw [h0, h1, h2, h3]
  omega

theorem read_uint16_le_after (a b : List Nat) (n : Nat) :
    read_uint16_le (a ++ (write_uint16_le n ++ b)) a.length = n % 65536 := by
  have h0 : byteAt (a ++ (write_uint16_le n ++ b)) a.length = n % 256 := by
    simpa using byteAt_seg a (write_uint16_le n) b 0 (by simp [write_uint16_le])
  have h1 : byteAt (a ++ (write_uint16_le n ++ b)) (a.length + 1) = n / 256 % 256 := by
    simpa using byteAt_seg a (write_uint16_le n) b 1 (by simp [write_uint16_le])
  unfold read_uint16_le
  rw [h0, h1]
  omega

theorem bytesAt_after (c : List Nat) : ∀ a b : List Nat,
    bytesAt (a ++ (c ++ b)) a.length (c.length) = c := by
  induction c with
  | nil => intro a b; rfl
  | cons x xs ih =>
    intro a b
    show byteAt (a ++ (x :: xs ++ b)) a.length
        :: bytesAt (a ++ (x :: xs ++ b)) (a.length + 1) xs.length = x :: xs
    have hx : byteAt (a ++ (x :: xs ++ b)) a.length = x := by
      simpa using byteAt_seg a (x :: xs) b 0 (by simp)
    have hr := ih (a ++ [x]) b
    simp only [List.append_assoc, List.cons_append, List.nil_append,
      List.length_append, List.length_cons, List.length_nil] at hr
    rw [hx]
    simpa using hr

theorem write_string_length {s : Option (List Nat)} (h : optLen s < 4294967296) :
    (write_string s).length = 4 + optLen s := by
  cases s with
  | none => rfl
  | some l =>
    simp only [optLen] at h
    simp [write_string, write_uint32_le, optLen, Nat.mod_eq_of_lt h]
    omega

theorem read_string_after (a b : List Nat) (s : Option (List Nat))
    (h : optLen s < 4294967296) :
    read_string (a ++ (write_string s ++ b)) a.length = (4 + optLen s, normStr s) := by
  cases s with
  | none =>
    unfold read_string write_string
    rw [read_uint32_le_after]
    simp [optLen, normStr]
  | some l =>
    cases l with
    | nil =>
      unfold read_string write_string
      simp only [List.length_nil, Nat.zero_mod, List.take_nil, List.append_nil]
      rw [read_uint32_le_after]
      simp [optLen, normStr]
    | cons x xs =>
      simp only [optLen] at h
      have hmod : (x :: xs).length % 4294967296 = (x :: xs).length := Nat.mod_eq_of_lt h
      have hws : write_string (some (x :: xs)) = write_uint32_le (x :: xs).length ++ (x :: xs) := by
        show write_uint32_le (x :: xs).length ++ (x :: xs).take ((x :: xs).length % 4294967296)
            = write_uint32_le (x :: xs).length ++ (x :: xs)
        rw [hmod, List.take_length]
      rw [hws, List.append_assoc]
      unfold read_string
      rw [read_uint32_le_after, hmod]
      have hne : ¬((x :: xs).length = 0) := by simp
      simp only [hne, if_false]
      have hb : bytesAt (a ++ (write_uint32_le (x :: xs).length ++ ((x :: xs) ++ b)))
          (a.length + 4) (x :: xs).length = x :: xs := by
        have := bytesAt_after (x :: xs) (a ++ write_uint32_le (x :: xs).length) b
        simpa [List.append_assoc] using this
      rw [hb]
      simp [optLen, normStr]

theorem write_metadata_chunk_length {m : Metadata} (h : WfMeta m) :
    (write_metadata_chunk m).length = calculate_metadata_size m := by
  obtain ⟨h1, h2, h3, h4, h5, h6, -, -, -, -, -⟩ := h
  simp [write_metadata_chunk, calculate_metadata_size, List.length_append,
    write_string_length h1, write_string_length h2, write_string_length h3,
    write_string_length h4, write_string_length h5, write_string_length h6,
    length_write_uint32_le, length_write_uint16_le]
  omega

theorem read_metadata_after (a b : List Nat) (m : Metadata) (h : WfMeta m) :
    read_metadata_chunk (a ++ (write_metadata_chunk m ++ b)) a.length
      = (calculate_metadata_size m, decodedMeta m) := by
  obtain ⟨h1, h2, h3, h4, h5, h6, hc, hdu, hbr, hsr, hch⟩ := h
  have hD : a ++ (write_metadata_chunk m ++ b)
      = a ++ (write_string m.title ++ (write_string m.artist ++ (write_string m.album
        ++ (write_string m.genre ++ (write_string m.year ++ (write_string m.comment
        ++ (write_uint32_le m.duration_ms ++ (write_uint32_le m.bitrate
        ++ (write_uint32_le m.sample_rate ++ (write_uint16_le m.channels ++ b)))))))))) := by
    simp [write_metadata_chunk, List.append_assoc]
  have s1 : ∀ X : List Nat, read_string (a ++ (write_string m.title ++ X)) a.length
      = (4 + optLen m.title, normStr m.title) := fun X => read_string_after a X m.title h1
  have s2 : ∀ X : List Nat, read_string
      (a ++ (write_string m.title ++ (write_string m.artist ++ X)))
      (a.length + (4 + optLen m.title))
      = (4 + optLen m.artist, normStr m.artist) := by
    intro X
    have hh := read_string_after (a ++ write_string m.title) X m.artist h2
    have hoff : (a ++ write_string m.title).length = a.length + (4 + optLen m.title) := by
      simp only [List.length_append, write_string_length h1]
    rw [hoff] at hh
    simpa only [List.append_assoc] using hh
  have s3 : ∀ X : List Nat, read_string
      (a ++ (write_string m.title ++ (write_string m.artist ++ (write_string m.album ++ X))))
      (a.length + (4 + optLen m.title) + (4 + optLen m.artist))
      = (4 + optLen m.album, normStr m.album) := by
    intro X
    have hh := read_string_after (a ++ write_string m.title ++ write_string m.artist)
      X m.album h3
    have hoff : (a ++ write_string m.title ++ write_string m.artist).length
        = a.length + (4 + optLen m.title) + (4 + optLen m.artist) := by
      simp only [List.length_append, write_string_length h1, write_string_length h2]
    rw [hoff] at hh
    simpa only [List.append_assoc] using hh
  have s4 : ∀ X : List Nat, read_string
      (a ++ (write_string m.title ++ (write_string m.artist ++ (write_string m.album
        ++ (write_string m.genre ++ X)))))
      (a.length + (4 + optLen m.title) + (4 + optLen m.artist) + (4 + optLen m.album))
      = (4 + optLen m.genre, normStr m.genre) := by
    intro X
    have hh := read_string_after
      (a ++ write_string m.title ++ write_string m.artist ++ write_string m.album)
      X m.genre h4
    have hoff : (a ++ write_string m.title ++ write_string m.artist
        ++ write_string m.album).length
        = a.length + (4 + optLen m.title) + (4 + optLen m.artist) + (4 + optLen m.album) := by
      simp only [List.length_append, write_string_length h1, write_string_length h2,
        write_string_length h3]
    rw [hoff] at hh
    simpa only [List.append_assoc] using hh
  have s5 : ∀ X : List Nat, read_string
      (a ++ (write_string m.title ++ (write_string m.artist ++ (write_string m.album
        ++ (write_string m.genre ++ (write_string m.year ++ X))))))
      (a.length + (4 + optLen m.title) + (4 + optLen m.artist) + (4 + optLen m.album)
        + (4 + optLen m.genre))
      = (4 + optLen m.year, normStr m.year) := by
    intro X
    have hh := read_string_after
      (a ++ write_string m.title ++ write_string m.artist ++ write_string m.album
        ++ write_string m.genre)
      X m.year h5
    have hoff : (a ++ write_string m.title ++ write_string m.artist ++ write_string m.album
        ++ write_string m.genre).length
        = a.length + (4 + optLen m.title) + (4 + optLen m.artist) + (4 + optLen m.album)
          + (4 + optLen m.genre) := by
      simp only [List.length_append, write_string_length h1, write_string_length h2,
        write_string_length h3, write_string_length h4]
    rw [hoff] at hh
    simpa only [List.append_assoc] using hh
  have s6 : ∀ X : List Nat, read_string
      (a ++ (write_string m.title ++ (write_string m.artist ++ (write_string m.album
        ++ (write_string m.genre ++ (write_string m.year ++ (write_string m.comment ++ X)))))))
      (a.length + (4 + optLen m.title) + (4 + optLen m.artist) + (4 + optLen m.album)
        + (4 + optLen m.genre) + (4 + optLen m.year))
      = (4 + optLen m.comment, normStr m.comment) := by
    intro X
    have hh := read_string_after
      (a ++ write_string m.title ++ write_string m.artist ++ write_string m.album
        ++ write_string m.genre ++ write_string m.year)
      X m.comment h6
    have hoff : (a ++ write_string m.title ++ write_string m.artist ++ write_string m.album
        ++ write_string m.genre ++ write_string m.year).length
        = a.length + (4 + optLen m.title) + (4 + optLen m.artist) + (4 + optLen m.album)
          + (4 + optLen m.genre) + (4 + optLen m.year) := by
      simp only [List.length_append, write_string_length h1, write_string_length h2,
        write_string_length h3, write_string_length h4, write_string_length h5]
    rw [hoff] at hh
    simpa only [List.append_assoc] using hh
  have n1 : ∀ X : List Nat, read_uint32_le
      (a ++ (write_string m.title ++ (write_string m.artist ++ (write_string m.album
        ++ (write_string m.genre ++ (write_string m.year ++ (write_string m.comment
        ++ (write_uint32_le m.duration_ms ++ X))))))))
      (a.length + (4 + optLen m.title) + (4 + optLen m.artist) + (4 + optLen m.album)
        + (4 + optLen m.genre) + (4 + optLen m.year) + (4 + optLen m.comment))
      = m.duration_ms % 4294967296 := by
    intro X
    have hh := read_uint32_le_after
      (a ++ write_string m.title ++ write_string m.artist ++ write_string m.album
        ++ write_string m.genre ++ write_string m.year ++ write_string m.comment)
      X m.duration_ms
    have hoff : (a ++ write_string m.title ++ write_string m.artist ++ write_string m.album
        ++ write_string m.genre ++ write_string m.year ++ write_string m.comment).length
        = a.length + (4 + optLen m.title) + (4 + optLen m.artist) + (4 + optLen m.album)
          + (4 + optLen m.genre) + (4 + optLen m.year) + (4 + optLen m.comment) := by
      simp only [List.length_append, write_string_length h1, write_string_length h2,
        write_string_length h3, write_string_length h4, write_string_length h5,
        write_string_length h6]
    rw [hoff] at hh
    simpa only [List.append_assoc] using hh
  have n2 : ∀ X : List Nat, read_uint32_le
      (a ++ (write_string m.title ++ (write_string m.artist ++ (write_string m.album
        ++ (write_string m.genre ++ (write_string m.year ++ (write_string m.comment
        ++ (write_uint32_le m.duration_ms ++ (write_uint32_le m.bitrate ++ X)))))))))
      (a.length + (4 + optLen m.title) + (4 + optLen m.artist) + (4 + optLen m.album)
        + (4 + optLen m.genre) + (4 + optLen m.year) + (4 + optLen m.comment) + 4)
      = m.bitrate % 4294967296 := by
    intro X
    have hh := read_uint32_le_after
      (a ++ write_string m.title ++ write_string m.artist ++ write_string m.album
        ++ write_string m.genre ++ write_string m.year ++ write_string m.comment
        ++ write_uint32_le m.duration_ms)
      X m.bitrate
    have hoff : (a ++ write_string m.title ++ write_string m.artist ++ write_string m.album
        ++ write_string m.genre ++ write_string m.year ++ write_string m.comment
        ++ write_uint32_le m.duration_ms).length
        = a.length + (4 + optLen m.title) + (4 + optLen m.artist) + (4 + optLen m.album)
          + (4 + optLen m.genre) + (4 + optLen m.year) + (4 + optLen m.comment) + 4 := by
      simp only [List.length_append, write_string_length h1, write_string_length h2,
        write_string_length h3, write_string_length h4, write_string_length h5,
        write_string_length h6, length_write_uint32_le]
    rw [hoff] at hh
    simpa only [List.append_assoc] using hh
  have n3 : ∀ X : List Nat, read_uint32_le
      (a ++ (write_string m.title ++ (write_string m.artist ++ (write_string m.album
        ++ (write_string m.genre ++ (write_string m.year ++ (write_string m.comment
        ++ (write_uint32_le m.duration_ms ++ (write_uint32_le m.bitrate
        ++ (write_uint32_le m.sample_rate ++ X))))))))))
      (a.length + (4 + optLen m.title) + (4 + optLen m.artist) + (4 + optLen m.album)
        + (4 + optLen m.genre) + (4 + optLen m.year) + (4 + optLen m.comment) + 8)
      = m.sample_rate % 4294967296 := by
    intro X
    have hh := read_uint32_le_after
      (a ++ write_string m.title ++ write_string m.artist ++ write_string m.album
        ++ write_string m.genre ++ write_string m.year ++ write_string m.comment
        ++ write_uint32_le m.duration_ms ++ write_uint32_le m.bitrate)
      X m.sample_rate
    have hoff : (a ++ write_string m.title ++ write_string m.artist ++ write_string m.album
        ++ write_string m.genre ++ write_string m.year ++ write_string m.comment
        ++ write_uint32_le m.duration_ms ++ write_uint32_le m.bitrate).length
        = a.length + (4 + optLen m.title) + (4 + optLen m.artist) + (4 + optLen m.album)
          + (4 + optLen m.genre) + (4 + optLen m.year) + (4 + optLen m.comment) + 8 := by
      simp only [List.length_append, write_string_length h1, write_string_length h2,
        write_string_length h3, write_string_length h4, write_string_length h5,
        write_string_length h6, length_write_uint32_le]
    rw [hoff] at hh
    simpa only [List.append_assoc] using hh
  have n4 : ∀ X : List Nat, read_uint16_le
      (a ++ (write_string m.title ++ (write_string m.artist ++ (write_string m.album
        ++ (write_string m.genre ++ (write_string m.year ++ (write_string m.comment
        ++ (write_uint32_le m.duration_ms ++ (write_uint32_le m.bitrate
        ++ (write_uint32_le m.sample_rate ++ (write_uint16_le m.channels ++ X)))))))))))
      (a.length + (4 + optLen m.title) + (4 + optLen m.artist) + (4 + optLen m.album)
        + (4 + optLen m.genre) + (4 + optLen m.year) + (4 + optLen m.comment) + 12)
      = m.channels % 65536 := by
    intro X
    have hh := read_uint16_le_after
      (a ++ write_string m.title ++ write_string m.artist ++ write_string m.album
        ++ write_string m.genre ++ write_string m.year ++ write_string m.comment
        ++ write_uint32_le m.duration_ms ++ write_uint32_le m.bitrate
        ++ write_uint32_le m.sample_rate)
      X m.channels
    have hoff : (a ++ write_string m.title ++ write_string m.artist ++ write_string m.album
        ++ write_string m.genre ++ write_string m.year ++ write_string m.comment
        ++ write_uint32_le m.duration_ms ++ write_uint32_le m.bitrate
        ++ write_uint32_le m.sample_rate).length
        = a.length + (4 + optLen m.title) + (4 + optLen m.artist) + (4 + optLen m.album)
          + (4 + optLen m.genre) + (4 + optLen m.year) + (4 + optLen m.comment) + 12 := by
      simp only [List.length_append, write_string_length h1, write_string_length h2,
        write_string_length h3, write_string_length h4, write_string_length h5,
        write_string_length h6, length_write_uint32_le]
    rw [hoff] at hh
    simpa only [List.append_assoc] using hh
  rw [hD]
  simp only [read_metadata_chunk]
  rw [s1]
  dsimp only
  rw [s2]
  dsimp only
  rw [s3]
  dsimp only
  rw [s4]
  dsimp only
  rw [s5]
  dsimp only
  rw [s6]
  dsimp only
  rw [n1, n2, n3, n4]
  refine Prod.ext ?_ ?_
  · show (4 + optLen m.title) + (4 + optLen m.artist) + (4 + optLen m.album)
      + (4 + optLen m.genre) + (4 + optLen m.year) + (4 + optLen m.comment) + 14
      = calculate_metadata_size m
    unfold calculate_metadata_size
    omega
  · rfl

/-! ## Chunk-level lemmas -/

theorem byteAt_head (pre : List Nat) (x : Nat) (l : List Nat) :
    byteAt (pre ++ (x :: l)) pre.length = x := by
  simpa using byteAt_append_right pre (x :: l) 0

theorem metaChunkBytes_length {m : Metadata} (h : WfMeta m) :
    (metaChunkBytes m).length = 5 + calculate_metadata_size m := by
  simp only [metaChunkBytes, List.length_cons, List.length_append,
    length_write_uint32_le, write_metadata_chunk_length h]
  omega

theorem lyricsChunkBytes_length (l : Lyrics) :
    (lyricsChunkBytes l).length = 5 + (4 + l.size) := by
  simp only [lyricsChunkBytes, List.length_cons, List.length_append,
    length_write_uint32_le, takeN_length]
  omega

theorem audioChunkBytes_length {a : Audio} (h : optLen a.source_filename < 4294967296) :
    (audioChunkBytes a).length = 5 + (4 + optLen a.source_filename + a.size) := by
  simp only [audioChunkBytes, List.length_cons, List.length_append,
    length_write_uint32_le, write_string_length h, takeN_length]
  omega

theorem coverChunkBytes_length (c : Cover) :
    (coverChunkBytes c).length = 5 + (12 + c.size) := by
  simp only [coverChunkBytes, List.length_cons, List.length_append,
    length_write_uint32_le, takeN_length]
  omega

theorem readChunks_step_md (pre rest : List Nat) (m : Metadata) (h : WfMeta m)
    (size n : Nat) (q : Package)
    (hsz : pre.length + (metaChunkBytes m).length ≤ size) :
    readChunks (pre ++ (metaChunkBytes m ++ rest)) size (n + 1) pre.length q
      = readChunks (pre ++ (metaChunkBytes m ++ rest)) size n
          (pre.length + (metaChunkBytes m).length) (sectDecode (.md m) q) := by
  have hlen := metaChunkBytes_length h
  have hcalc : calculate_metadata_size m < 4294967296 := h.2.2.2.2.2.2.1
  have hbuf : pre ++ (metaChunkBytes m ++ rest)
      = pre ++ (1 :: (write_uint32_le (calculate_metadata_size m)
          ++ (write_metadata_chunk m ++ rest))) := by
    simp [metaChunkBytes, List.append_assoc]
  have hct : byteAt (pre ++ (metaChunkBytes m ++ rest)) pre.length = 1 := by
    rw [hbuf]; exact byteAt_head pre 1 _
  have hcs : read_uint32_le (pre ++ (metaChunkBytes m ++ rest)) (pre.length + 1)
      = calculate_metadata_size m := by
    rw [hbuf]
    have hh := read_uint32_le_after (pre ++ [1]) (write_metadata_chunk m ++ rest)
      (calculate_metadata_size m)
    rw [Nat.mod_eq_of_lt hcalc] at hh
    simpa only [List.append_assoc, List.cons_append, List.nil_append,
      List.length_append, List.length_cons, List.length_nil, Nat.zero_add] using hh
  have hmd : read_metadata_chunk (pre ++ (metaChunkBytes m ++ rest)) (pre.length + 5)
      = (calculate_metadata_size m, decodedMeta m) := by
    rw [hbuf]
    have hh := read_metadata_after
      (pre ++ (1 :: write_uint32_le (calculate_metadata_size m))) rest m h
    simpa only [List.append_assoc, List.cons_append, List.nil_append,
      List.length_append, List.length_cons, length_write_uint32_le] using hh
  have c1 : pre.length < size := by omega
  have c2 : ¬ (pre.length + 5 > size) := by omega
  have c3 : ¬ (pre.length + 5 + calculate_metadata_size m > size) := by omega
  have hoff : pre.length + 5 + calculate_metadata_size m
      = pre.length + (metaChunkBytes m).length := by omega
  simp only [readChunks]
  rw [if_pos c1, if_neg c2, hct, hcs, if_neg c3, hoff]
  simp [applyChunk, hmd, sectDecode]

theorem readChunks_step_ly (pre rest : List Nat) (l : Lyrics) (h : WfLyrics l)
    (size n : Nat) (q : Package)
    (hsz : pre.length + (lyricsChunkBytes l).length ≤ size) :
    readChunks (pre ++ (lyricsChunkBytes l ++ rest)) size (n + 1) pre.length q
      = readChunks (pre ++ (lyricsChunkBytes l ++ rest)) size n
          (pre.length + (lyricsChunkBytes l).length) (sectDecode (.ly l) q) := by
  obtain ⟨hb, hdl, hfb⟩ := h
  have hlen := lyricsChunkBytes_length l
  have htn : takeN (l.data.getD []) l.size = l.data.getD [] := takeN_of_length_eq hdl
  have hbuf : pre ++ (lyricsChunkBytes l ++ rest)
      = pre ++ (2 :: (write_uint32_le (4 + l.size)
          ++ (write_uint32_le l.format ++ (l.data.getD [] ++ rest)))) := by
    simp [lyricsChunkBytes, htn, List.append_assoc]
  have hct : byteAt (pre ++ (lyricsChunkBytes l ++ rest)) pre.length = 2 := by
    rw [hbuf]; exact byteAt_head pre 2 _
  have hcs : read_uint32_le (pre ++ (lyricsChunkBytes l ++ rest)) (pre.length + 1)
      = 4 + l.size := by
    rw [hbuf]
    have hh := read_uint32_le_after (pre ++ [2])
      (write_uint32_le l.format ++ (l.data.getD [] ++ rest)) (4 + l.size)
    rw [Nat.mod_eq_of_lt hb] at hh
    simpa only [List.append_assoc, List.cons_append, List.nil_append,
      List.length_append, List.length_cons, List.length_nil, Nat.zero_add] using hh
  have hfm : read_uint32_le (pre ++ (lyricsChunkBytes l ++ rest)) (pre.length + 5)
      = l.format % 4294967296 := by
    rw [hbuf]
    have hh := read_uint32_le_after (pre ++ (2 :: write_uint32_le (4 + l.size)))
      (l.data.getD [] ++ rest) l.format
    have hoffA : (pre ++ (2 :: write_uint32_le (4 + l.size))).length = pre.length + 5 := by
      simp only [List.length_append, List.length_cons, length_write_uint32_le]
    rw [hoffA] at hh
    simpa only [List.append_assoc, List.cons_append, List.nil_append] using hh
  have hpl : bytesAt (pre ++ (lyricsChunkBytes l ++ rest)) (pre.length + 5 + 4) l.size
      = l.data.getD [] := by
    rw [hbuf]
    have hh := bytesAt_after (l.data.getD [])
      (pre ++ (2 :: (write_uint32_le (4 + l.size) ++ write_uint32_le l.format))) rest
    have hoffA : (pre ++ (2 :: (write_uint32_le (4 + l.size)
        ++ write_uint32_le l.format))).length = pre.length + 5 + 4 := by
      simp only [List.length_append, List.length_cons, length_write_uint32_le]
      try omega
    rw [hoffA, hdl] at hh
    simpa only [List.append_assoc, List.cons_append, List.nil_append] using hh
  have c1 : pre.length < size := by omega
  have c2 : ¬ (pre.length + 5 > size) := by omega
  have c3 : ¬ (pre.length + 5 + (4 + l.size) > size) := by omega
  have hoff : pre.length + 5 + (4 + l.size) = pre.length + (lyricsChunkBytes l).length := by
    omega
  have hls : (4 + l.size + 4294967296 - 4) % 4294967296 = l.size := by omega
  have hls2 : (4 + l.size + 4294967292) % 4294967296 = l.size := by omega
  simp only [readChunks]
  rw [if_pos c1, if_neg c2, hct, hcs, if_neg c3, hoff]
  simp [applyChunk, hfm, hls, hls2, hpl, sectDecode]

theorem readChunks_step_au (pre rest : List Nat) (a : Audio) (h : WfAudio a)
    (size n : Nat) (q : Package)
    (hsz : pre.length + (audioChunkBytes a).length ≤ size) :
    readChunks (pre ++ (audioChunkBytes a ++ rest)) size (n + 1) pre.length q
      = readChunks (pre ++ (audioChunkBytes a ++ rest)) size n
          (pre.length + (audioChunkBytes a).length) (sectDecode (.au a) q) := by
  obtain ⟨hb, hdl⟩ := h
  have hfn : optLen a.source_filename < 4294967296 := by omega
  have hlen := audioChunkBytes_length hfn
  have htn : takeN (a.data.getD []) a.size = a.data.getD [] := takeN_of_length_eq hdl
  have hbuf : pre ++ (audioChunkBytes a ++ rest)
      = pre ++ (3 :: (write_uint32_le (4 + optLen a.source_filename + a.size)
          ++ (write_string a.source_filename ++ (a.data.getD [] ++ rest)))) := by
    simp [audioChunkBytes, htn, List.append_assoc]
  have hct : byteAt (pre ++ (audioChunkBytes a ++ rest)) pre.length = 3 := by
    rw [hbuf]; exact byteAt_head pre 3 _
  have hcs : read_uint32_le (pre ++ (audioChunkBytes a ++ rest)) (pre.length + 1)
      = 4 + optLen a.source_filename + a.size := by
    rw [hbuf]
    have hh := read_uint32_le_after (pre ++ [3])
      (write_string a.source_filename ++ (a.data.getD [] ++ rest))
      (4 + optLen a.source_filename + a.size)
    rw [Nat.mod_eq_of_lt hb] at hh
    simpa only [List.append_assoc, List.cons_append, List.nil_append,
      List.length_append, List.length_cons, List.length_nil, Nat.zero_add] using hh
  have hrs : read_string (pre ++ (audioChunkBytes a ++ rest)) (pre.length + 5)
      = (4 + optLen a.source_filename, normStr a.source_filename) := by
    rw [hbuf]
    have hh := read_string_after
      (pre ++ (3 :: write_uint32_le (4 + optLen a.source_filename + a.size)))
      (a.data.getD [] ++ rest) a.source_filename hfn
    have hoffA : (pre ++ (3 :: write_uint32_le
        (4 + optLen a.source_filename + a.size))).length = pre.length + 5 := by
      simp only [List.length_append, List.length_cons, length_write_uint32_le]
    rw [hoffA] at hh
    simpa only [List.append_assoc, List.cons_append, List.nil_append] using hh
  have hpl : bytesAt (pre ++ (audioChunkBytes a ++ rest))
      (pre.length + 5 + (4 + optLen a.source_filename)) a.size = a.data.getD [] := by
    rw [hbuf]
    have hh := bytesAt_after (a.data.getD [])
      (pre ++ (3 :: (write_uint32_le (4 + optLen a.source_filename + a.size)
        ++ write_string a.source_filename))) rest
    have hoffA : (pre ++ (3 :: (write_uint32_le (4 + optLen a.source_filename + a.size)
        ++ write_string a.source_filename))).length
        = pre.length + 5 + (4 + optLen a.source_filename) := by
      simp only [List.length_append, List.length_cons, length_write_uint32_le,
        write_string_length hfn]
      try omega
    rw [hoffA, hdl] at hh
    simpa only [List.append_assoc, List.cons_append, List.nil_append] using hh
  have c1 : pre.length < size := by omega
  have c2 : ¬ (pre.length + 5 > size) := by omega
  have c3 : ¬ (pre.length + 5 + (4 + optLen a.source_filename + a.size) > size) := by omega
  have hoff : pre.length + 5 + (4 + optLen a.source_filename + a.size)
      = pre.length + (audioChunkBytes a).length := by omega
  have has : (4 + optLen a.source_filename + a.size + 18446744073709551616
      - (4 + optLen a.source_filename)) % 18446744073709551616 = a.size := by omega
  simp only [readChunks]
  rw [if_pos c1, if_neg c2, hct, hcs, if_neg c3, hoff]
  simp [applyChunk, hrs, has, hpl, sectDecode]

theorem readChunks_step_cv (pre rest : List Nat) (c : Cover) (h : WfCover c)
    (size n : Nat) (q : Package)
    (hsz : pre.length + (coverChunkBytes c).length ≤ size) :
    readChunks (pre ++ (coverChunkBytes c ++ rest)) size (n + 1) pre.length q
      = readChunks (pre ++ (coverChunkBytes c ++ rest)) size n
          (pre.length + (coverChunkBytes c).length) (sectDecode (.cv c) q) := by
  obtain ⟨hb, hdl, hfb, hwb, hhb⟩ := h
  have hlen := coverChunkBytes_length c
  have htn : takeN (c.data.getD []) c.size = c.data.getD [] := takeN_of_length_eq hdl
  have hbuf : pre ++ (coverChunkBytes c ++ rest)
      = pre ++ (4 :: (write_uint32_le (12 + c.size)
          ++ (write_uint32_le c.format ++ (write_uint32_le c.width
          ++ (write_uint32_le c.height ++ (c.data.getD [] ++ rest)))))) := by
    simp [coverChunkBytes, htn, List.append_assoc]
  have hct : byteAt (pre ++ (coverChunkBytes c ++ rest)) pre.length = 4 := by
    rw [hbuf]; exact byteAt_head pre 4 _
  have hcs : read_uint32_le (pre ++ (coverChunkBytes c ++ rest)) (pre.length + 1)
      = 12 + c.size := by
    rw [hbuf]
    have hh := read_uint32_le_after (pre ++ [4])
      (write_uint32_le c.format ++ (write_uint32_le c.width
        ++ (write_uint32_le c.height ++ (c.data.getD [] ++ rest)))) (12 + c.size)
    rw [Nat.mod_eq_of_lt hb] at hh
    simpa only [List.append_assoc, List.cons_append, List.nil_append,
      List.length_append, List.length_cons, List.length_nil, Nat.zero_add] using hh
  have hfm : read_uint32_le (pre ++ (coverChunkBytes c ++ rest)) (pre.length + 5)
      = c.format % 4294967296 := by
    rw [hbuf]
    have hh := read_uint32_le_after (pre ++ (4 :: write_uint32_le (12 + c.size)))
      (write_uint32_le c.width ++ (write_uint32_le c.height
        ++ (c.data.getD [] ++ rest))) c.format
    have hoffA : (pre ++ (4 :: write_uint32_le (12 + c.size))).length
        = pre.length + 5 := by
      simp only [List.length_append, List.length_cons, length_write_uint32_le]
    rw [hoffA] at hh
    simpa only [List.append_assoc, List.cons_append, List.nil_append] using hh
  have hwd : read_uint32_le (pre ++ (coverChunkBytes c ++ rest)) (pre.length + 5 + 4)
      = c.width % 4294967296 := by
    rw [hbuf]
    have hh := read_uint32_le_after
      (pre ++ (4 :: (write_uint32_le (12 + c.size) ++ write_uint32_le c.format)))
      (write_uint32_le c.height ++ (c.data.getD [] ++ rest)) c.width
    have hoffA : (pre ++ (4 :: (write_uint32_le (12 + c.size)
        ++ write_uint32_le c.format))).length = pre.length + 5 + 4 := by
      simp only [List.length_append, List.length_cons, length_write_uint32_le]
      try omega
    rw [hoffA] at hh
    simpa only [List.append_assoc, List.cons_append, List.nil_append] using hh
  have hht : read_uint32_le (pre ++ (coverChunkBytes c ++ rest)) (pre.length + 5 + 8)
      = c.height % 4294967296 := by
    rw [hbuf]
    have hh := read_uint32_le_after
      (pre ++ (4 :: (write_uint32_le (12 + c.size) ++ (write_uint32_le c.format
        ++ write_uint32_le c.width))))
      (c.data.getD [] ++ rest) c.height
    have hoffA : (pre ++ (4 :: (write_uint32_le (12 + c.size) ++ (write_uint32_le c.format
        ++ write_uint32_le c.width)))).length = pre.length + 5 + 8 := by
      simp only [List.length_append, List.length_cons, length_write_uint32_le]
      try omega
    rw [hoffA] at hh
    simpa only [List.append_assoc, List.cons_append, List.nil_append] using hh
  have hpl : bytesAt (pre ++ (coverChunkBytes c ++ rest)) (pre.length + 5 + 12) c.size
      = c.data.getD [] := by
    rw [hbuf]
    have hh := bytesAt_after (c.data.getD [])
      (pre ++ (4 :: (write_uint32_le (12 + c.size) ++ (write_uint32_le c.format
        ++ (write_uint32_le c.width ++ write_uint32_le c.height))))) rest
    have hoffA : (pre ++ (4 :: (write_uint32_le (12 + c.size) ++ (write_uint32_le c.format
        ++ (write_uint32_le c.width ++ write_uint32_le c.height))))).length
        = pre.length + 5 + 12 := by
      simp only [List.length_append, List.length_cons, length_write_uint32_le]
      try omega
    rw [hoffA, hdl] at hh
    simpa only [List.append_assoc, List.cons_append, List.nil_append] using hh
  have c1 : pre.length < size := by omega
  have c2 : ¬ (pre.length + 5 > size) := by omega
  have c3 : ¬ (pre.length + 5 + (12 + c.size) > size) := by omega
  have hoff : pre.length + 5 + (12 + c.size) = pre.length + (coverChunkBytes c).length := by
    omega
  have hcsz : (12 + c.size + 4294967296 - 12) % 4294967296 = c.size := by omega
  have hcsz2 : (12 + c.size + 4294967284) % 4294967296 = c.size := by omega
  simp only [readChunks]
  rw [if_pos c1, if_neg c2, hct, hcs, if_neg c3, hoff]
  simp [applyChunk, hfm, hwd, hht, hcsz, hcsz2, hpl, sectDecode]

theorem readChunks_step (pre rest : List Nat) (s : Sect) (hw : s.Wf)
    (size n : Nat) (q : Package)
    (hsz : pre.length + (sectBytes s).length ≤ size) :
    readChunks (pre ++ (sectBytes s ++ rest)) size (n + 1) pre.length q
      = readChunks (pre ++ (sectBytes s ++ rest)) size n
          (pre.length + (sectBytes s).length) (sectDecode s q) := by
  cases s with
  | md m => exact readChunks_step_md pre rest m hw size n q hsz
  | ly l => exact readChunks_step_ly pre rest l hw size n q hsz
  | au a => exact readChunks_step_au pre rest a hw size n q hsz
  | cv c => exact readChunks_step_cv pre rest c hw size n q hsz

theorem joinBytes_cons (s : Sect) (ss : List Sect) :
    joinBytes (s :: ss) = sectBytes s ++ joinBytes ss := by
  simp [joinBytes]

theorem readChunks_list : ∀ (ss : List Sect) (pre rest : List Nat) (q : Package)
    (size : Nat), (∀ s ∈ ss, s.Wf) → pre.length + (joinBytes ss).length ≤ size →
    readChunks (pre ++ (joinBytes ss ++ rest)) size ss.length pre.length q
      = ss.foldl (fun p s => sectDecode s p) q := by
  intro ss
  induction ss with
  | nil => intro pre rest q size _ _; rfl
  | cons s ss ih =>
    intro pre rest q size hw hsz
    have hws : s.Wf := hw s (by simp)
    have hwss : ∀ t ∈ ss, t.Wf := fun t ht => hw t (by simp [ht])
    have hjl : (joinBytes (s :: ss)).length
        = (sectBytes s).length + (joinBytes ss).length := by
      simp [joinBytes_cons]
    have hsz1 : pre.length + (sectBytes s).length ≤ size := by omega
    have hbuf : pre ++ (joinBytes (s :: ss) ++ rest)
        = pre ++ (sectBytes s ++ (joinBytes ss ++ rest)) := by
      simp [joinBytes_cons, List.append_assoc]
    rw [hbuf, List.length_cons,
      readChunks_step pre (joinBytes ss ++ rest) s hws size ss.length q hsz1]
    have hrec := ih (pre ++ sectBytes s) rest (sectDecode s q) size hwss
      (by simp only [List.length_append]; omega)
    simp only [List.append_assoc, List.length_append] at hrec
    simpa using hrec

theorem numChunks_eq (p : Package) : numChunks p = (sectsOf p).length := by
  cases hm : p.has_metadata <;> cases hl : p.has_lyrics <;> cases ha : p.has_audio <;>
    cases hc : p.has_cover <;> simp [numChunks, sectsOf, hm, hl, ha, hc]

theorem numChunks_lt (p : Package) : numChunks p < 4294967296 := by
  unfold numChunks
  split_ifs <;> omega

theorem save_eq_sects (p : Package) :
    dmusicpak_save_memory p
      = [68, 77, 80, 75] ++ (write_uint32_le 1 ++ (write_uint32_le (numChunks p)
          ++ joinBytes (sectsOf p))) := by
  cases hm : p.has_metadata <;> cases hl : p.has_lyrics <;> cases ha : p.has_audio <;>
    cases hc : p.has_cover <;>
    simp [dmusicpak_save_memory, sectsOf, joinBytes, sectBytes, hm, hl, ha, hc,
      List.append_assoc]

theorem sectsOf_wf {p : Package} (hw : WfPackage p) : ∀ s ∈ sectsOf p, s.Wf := by
  obtain ⟨wm, wl, wa, wc⟩ := hw
  intro s hs
  have key : ∀ (b : Bool) (x : Sect), (b = true → x.Wf)
      → s ∈ (if b then [x] else []) → s.Wf := by
    intro b x hwx hmem
    cases b
    · simp at hmem
    · simp at hmem
      subst hmem
      exact hwx rfl
  simp only [sectsOf, List.mem_append] at hs
  rcases hs with ((h | h) | h) | h
  · exact key p.has_metadata (Sect.md p.metadata) (fun hf => wm hf) h
  · exact key p.has_lyrics (Sect.ly p.lyrics) (fun hf => wl hf) h
  · exact key p.has_audio (Sect.au p.audio) (fun hf => wa hf) h
  · exact key p.has_cover (Sect.cv p.cover) (fun hf => wc hf) h

theorem load_save (p : Package) (hw : WfPackage p) :
    dmusicpak_load_memory (dmusicpak_save_memory p) (dmusicpak_save_memory p).length
      = some (decodeExpected p) := by
  have hN := numChunks_lt p
  rw [save_eq_sects p]
  set N := numChunks p with hNdef
  set J := joinBytes (sectsOf p) with hJdef
  set H := [68, 77, 80, 75] ++ (write_uint32_le 1 ++ (write_uint32_le N ++ J)) with hHdef
  have hHlen : H.length = 12 + J.length := by
    simp [hHdef, length_write_uint32_le]
    omega
  have h12 : ¬ (H.length < 12) := by omega
  have hmg : byteAt H 0 = 68 ∧ byteAt H 1 = 77 ∧ byteAt H 2 = 80 ∧ byteAt H 3 = 75 := by
    rw [hHdef]
    exact ⟨rfl, rfl, rfl, rfl⟩
  have hver : read_uint32_le H 4 = 1 := by
    rw [hHdef]
    simpa using read_uint32_le_after [68, 77, 80, 75] (write_uint32_le N ++ J) 1
  have hcnt : read_uint32_le H 8 = N := by
    rw [hHdef]
    have hh := read_uint32_le_after ([68, 77, 80, 75] ++ write_uint32_le 1) J N
    rw [Nat.mod_eq_of_lt hN] at hh
    simpa [List.append_assoc, length_write_uint32_le] using hh
  unfold dmusicpak_load_memory
  rw [if_neg h12, if_pos hmg, if_pos hver, hcnt]
  congr 1
  have hpre : ([68, 77, 80, 75] ++ (write_uint32_le 1 ++ write_uint32_le N)).length = 12 := by
    simp [length_write_uint32_le]
  have hrc := readChunks_list (sectsOf p)
    ([68, 77, 80, 75] ++ (write_uint32_le 1 ++ write_uint32_le N)) [] dmusicpak_create
    H.length (sectsOf_wf hw) (by rw [hpre, ← hJdef]; omega)
  rw [hpre, ← hJdef] at hrc
  have hsplit : [68, 77, 80, 75] ++ (write_uint32_le 1 ++ write_uint32_le N) ++ (J ++ [])
      = H := by
    simp [hHdef, List.append_assoc]
  rw [hsplit] at hrc
  rw [hNdef, numChunks_eq p, hrc]
  rfl

/-! ## The decode of an encoding, in closed form -/

theorem decodeExpected_eq (p : Package) :
    decodeExpected p =
      { metadata := if p.has_metadata then decodedMeta p.metadata
                    else dmusicpak_create.metadata
        lyrics := if p.has_lyrics then
            (if 0 < p.lyrics.size then
              ⟨p.lyrics.format % 4294967296, some (p.lyrics.data.getD []), p.lyrics.size⟩
             else ⟨p.lyrics.format % 4294967296, none, p.lyrics.size⟩)
          else dmusicpak_create.lyrics
        audio := if p.has_audio then
            (if 0 < p.audio.size then
              ⟨0, normStr p.audio.source_filename, some (p.audio.data.getD []), p.audio.size⟩
             else ⟨0, normStr p.audio.source_filename, none, p.audio.size⟩)
          else dmusicpak_create.audio
        cover := if p.has_cover then
            (if 0 < p.cover.size then
              ⟨p.cover.format % 4294967296, some (p.cover.data.getD []), p.cover.size,
               p.cover.width % 4294967296, p.cover.height % 4294967296⟩
             else ⟨p.cover.format % 4294967296, none, p.cover.size,
               p.cover.width % 4294967296, p.cover.height % 4294967296⟩)
          else dmusicpak_create.cover
        has_metadata := p.has_metadata
        has_lyrics := p.has_lyrics && decide (0 < p.lyrics.size)
        has_audio := p.has_audio && decide (0 < p.audio.size)
        has_cover := p.has_cover && decide (0 < p.cover.size) } := by
  unfold decodeExpected
  cases hm : p.has_metadata <;> cases hl : p.has_lyrics <;> cases ha : p.has_audio <;>
    cases hc : p.has_cover <;>
    by_cases hls : 0 < p.lyrics.size <;> by_cases hsa : 0 < p.audio.size <;>
    by_cases hcs : 0 < p.cover.size <;>
    simp [sectsOf, sectDecode, dmusicpak_create, hm, hl, ha, hc, hls, hsa, hcs]

theorem normStr_eq {s : Option (List Nat)} (h : s ≠ some []) : normStr s = s := by
  match s with
  | none => rfl
  | some [] => exact absurd rfl h
  | some (x :: xs) => rfl

theorem dataGet_eq {o : Option (List Nat)} {n : Nat} (hl : (o.getD []).length = n)
    (hp : 0 < n) : o = some (o.getD []) := by
  cases o with
  | none => simp at hl; omega
  | some d => rfl

theorem decodedMeta_eq {m : Metadata} (hw : WfMeta m) (h1 : m.title ≠ some [])
    (h2 : m.artist ≠ some []) (h3 : m.album ≠ some []) (h4 : m.genre ≠ some [])
    (h5 : m.year ≠ some []) (h6 : m.comment ≠ some []) : decodedMeta m = m := by
  obtain ⟨-, -, -, -, -, -, -, hd, hb, hs, hc⟩ := hw
  unfold decodedMeta
  rw [normStr_eq h1, normStr_eq h2, normStr_eq h3, normStr_eq h4, normStr_eq h5,
    normStr_eq h6, Nat.mod_eq_of_lt hd, Nat.mod_eq_of_lt hb, Nat.mod_eq_of_lt hs,
    Nat.mod_eq_of_lt hc]

theorem decodeExpected_audio_format (p : Package) :
    (decodeExpected p).audio.format = 0 := by
  rw [decodeExpected_eq]
  by_cases ha : p.has_audio = true <;> by_cases hs : 0 < p.audio.size <;>
    simp [ha, hs, dmusicpak_create]

/-! ## Claim theorems -/

/-- Claim C2 (corrected): decoding the encoding of a well-formed package whose
present lyrics, audio and cover payloads are nonempty and whose present string
fields are NULL or nonempty reproduces every present section with identical
fields and payload bytes — except the in-memory audio format tag, which is not
on the wire and decodes as 0 (NONE) — and leaves every absent section absent. -/
theorem C2_round_trip (p : Package) (hw : WfPackage p) (he : ExactPackage p) :
    dmusicpak_load_memory (dmusicpak_save_memory p) (dmusicpak_save_memory p).length
      = some (decodeExpected p)
    ∧ (decodeExpected p).has_metadata = p.has_metadata
    ∧ (decodeExpected p).has_lyrics = p.has_lyrics
    ∧ (decodeExpected p).has_audio = p.has_audio
    ∧ (decodeExpected p).has_cover = p.has_cover
    ∧ (p.has_metadata = true → (decodeExpected p).metadata = p.metadata)
    ∧ (p.has_lyrics = true → (decodeExpected p).lyrics = p.lyrics)
    ∧ (p.has_audio = true → (decodeExpected p).audio = { p.audio with format := 0 })
    ∧ (p.has_cover = true → (decodeExpected p).cover = p.cover) := by
  obtain ⟨wm, wl, wa, wc⟩ := hw
  obtain ⟨em, el, ea, ec⟩ := he
  refine ⟨load_save p ⟨wm, wl, wa, wc⟩, ?_, ?_, ?_, ?_, ?_, ?_, ?_, ?_⟩
  · rw [decodeExpected_eq]
  · rw [decodeExpected_eq]
    cases hl : p.has_lyrics
    · rfl
    · simp [el hl]
  · rw [decodeExpected_eq]
    cases ha : p.has_audio
    · rfl
    · simp [(ea ha).1]
  · rw [decodeExpected_eq]
    cases hc : p.has_cover
    · rfl
    · simp [ec hc]
  · intro hm
    rw [decodeExpected_eq]
    obtain ⟨e1, e2, e3, e4, e5, e6⟩ := em hm
    simp only [hm, if_true]
    exact decodedMeta_eq (wm hm) e1 e2 e3 e4 e5 e6
  · intro hl
    rw [decodeExpected_eq]
    obtain ⟨hb, hd, hf⟩ := wl hl
    simp only [hl, if_true, el hl]
    rw [Nat.mod_eq_of_lt hf, ← dataGet_eq hd (el hl)]
  · intro ha
    rw [decodeExpected_eq]
    obtain ⟨hb, hd⟩ := wa ha
    obtain ⟨hpos, hfn⟩ := ea ha
    simp only [ha, if_true, hpos]
    rw [normStr_eq hfn, ← dataGet_eq hd hpos]
  · intro hc
    rw [decodeExpected_eq]
    obtain ⟨hb, hd, hf, hwd, hht⟩ := wc hc
    simp only [hc, if_true, ec hc]
    rw [Nat.mod_eq_of_lt hf, Nat.mod_eq_of_lt hwd,
      Nat.mod_eq_of_lt hht, ← dataGet_eq hd (ec hc)]

/-- Witness for C2 at a concrete fully populated package. -/
theorem C2_round_trip_witness :
    dmusicpak_load_memory (dmusicpak_save_memory wPackage)
        (dmusicpak_save_memory wPackage).length = some (decodeExpected wPackage) :=
  (C2_round_trip wPackage (by decide) (by decide)).1

/-- Counterexample for C2 as stated: the package with an empty (non-NULL)
title, a present empty-payload lyrics section and audio format tag 1 decodes
from its own encoding with title NULL, lyrics absent and audio format 0. -/
theorem C2_round_trip_cex :
    cexPackage.metadata.title = some [] ∧ cexPackage.has_lyrics = true
    ∧ cexPackage.audio.format = 1
    ∧ (dmusicpak_load_memory (dmusicpak_save_memory cexPackage)
        (dmusicpak_save_memory cexPackage).length).map
        (fun q => (q.metadata.title, q.has_lyrics, q.audio.format))
      = some (none, false, 0) := by
  refine ⟨rfl, rfl, rfl, ?_⟩
  decide

/-- Claim C6 (confirmed): the encoded audio chunk does not depend on the
in-memory audio format tag — its body is only the length-prefixed filename
followed by the payload bytes — and decoding the encoding of any well-formed
package yields audio format 0 (NONE), so a format tag set before encoding is
lost on the round trip. -/
theorem C6_audio_format_lost (p : Package) (hw : WfPackage p)
    (_ha : p.has_audio = true) (f : Nat) :
    audioChunkBytes { p.audio with format := f } = audioChunkBytes p.audio
    ∧ (dmusicpak_load_memory (dmusicpak_save_memory p)
        (dmusicpak_save_memory p).length).map (fun q => q.audio.format) = some 0 := by
  refine ⟨rfl, ?_⟩
  rw [load_save p hw]
  simp [decodeExpected_audio_format]

/-- Witness for C6: the concrete package stores audio format 5, the decode of
its encoding has format 0. -/
theorem C6_audio_format_lost_witness :
    (dmusicpak_load_memory (dmusicpak_save_memory wPackage)
        (dmusicpak_save_memory wPackage).length).map (fun q => q.audio.format)
      = some 0 :=
  (C6_audio_format_lost wPackage (by decide) rfl 5).2

/-- Claim C1 (code_bug evidence): the 17-byte buffer `oobData1` passes the
header and chunk-bound checks, but the metadata body decoder then reads
indices 17..54 — all at or past the declared size — with no length check, so
the decode result depends on memory beyond the buffer: extending the memory
with a 7 at index 41 (while the first 17 bytes are unchanged) changes the
decoded duration_ms from 0 to 7. -/
theorem C1_out_of_bounds_read :
    oobData2.take 17 = oobData1
    ∧ dmusicpak_load_memory oobData1 17 ≠ dmusicpak_load_memory oobData2 17
    ∧ (dmusicpak_load_memory oobData1 17).map (fun q => q.metadata.duration_ms)
        = some 0
    ∧ (dmusicpak_load_memory oobData2 17).map (fun q => q.metadata.duration_ms)
        = some 7 := by
  refine ⟨by decide, by decide, by decide, by decide⟩

/-- Claim C4 (confirmed): the decoder returns no package exactly when the
input is shorter than the 12-byte header, the magic is not "DMPK", or the
version field is not 1; every other input yields a package. -/
theorem C4_header_checks (d : List Nat) (size : Nat) :
    dmusicpak_load_memory d size = none
      ↔ (size < 12
          ∨ ¬ (byteAt d 0 = 68 ∧ byteAt d 1 = 77 ∧ byteAt d 2 = 80 ∧ byteAt d 3 = 75)
          ∨ read_uint32_le d 4 ≠ 1) := by
  unfold dmusicpak_load_memory
  split_ifs with h1 h2 h3 <;> simp_all

/-- Claim C5 (code_bug evidence): dmusicpak_set_lyrics frees the existing
payload and overwrites the section fields before attempting the allocation;
when the allocation fails it returns MEMORY_ALLOC (-4) with the package
already mutated: the old 3-byte payload is gone and the data pointer is NULL
while the presence flag is still set. dmusicpak_set_audio and
dmusicpak_set_cover follow the same pattern. -/
theorem C5_set_lyrics_partial_effects :
    (dmusicpak_set_lyrics false lPackage
        { format := 1, data := some [9, 9], size := 2 }).1 = -4
    ∧ (dmusicpak_set_lyrics false lPackage
        { format := 1, data := some [9, 9], size := 2 }).2 ≠ lPackage
    ∧ (dmusicpak_set_lyrics false lPackage
        { format := 1, data := some [9, 9], size := 2 }).2.lyrics.data = none
    ∧ (dmusicpak_set_lyrics false lPackage
        { format := 1, data := some [9, 9], size := 2 }).2.has_lyrics = true
    ∧ lPackage.lyrics.data = some [1, 2, 3] := by
  refine ⟨by decide, by decide, by decide, by decide, by decide⟩

theorem takeN_eq_take {d : List Nat} {n : Nat} (h : n ≤ d.length) :
    takeN d n = d.take n := by
  simp [takeN, Nat.sub_eq_zero_of_le h]

/-- Claim C7 (confirmed): get_audio_chunk returns -1 without an audio section;
0 bytes when the offset is at or past the payload end; otherwise it copies
exactly min(size, payload_length - offset) bytes of the payload starting at
the offset and returns that count. -/
theorem C7_get_audio_chunk (p : Package) (off sz : Nat)
    (hd : (p.audio.data.getD []).length = p.audio.size) :
    (p.has_audio = false → dmusicpak_get_audio_chunk p off sz = (-1, []))
    ∧ (p.has_audio = true → p.audio.size ≤ off →
        dmusicpak_get_audio_chunk p off sz = (0, []))
    ∧ (p.has_audio = true → off < p.audio.size →
        (dmusicpak_get_audio_chunk p off sz).1 = (min sz (p.audio.size - off) : Nat)
        ∧ (dmusicpak_get_audio_chunk p off sz).2
            = ((p.audio.data.getD []).drop off).take (min sz (p.audio.size - off))) := by
  refine ⟨?_, ?_, ?_⟩
  · intro h
    simp [dmusicpak_get_audio_chunk, h]
  · intro h hoff
    simp [dmusicpak_get_audio_chunk, h, hoff]
  · intro h hoff
    have hmin : (if p.audio.size < off + sz then p.audio.size - off else sz)
        = min sz (p.audio.size - off) := by
      rw [Nat.min_def]
      split_ifs <;> omega
    have hle : min sz (p.audio.size - off) ≤ ((p.audio.data.getD []).drop off).length := by
      rw [List.length_drop, hd]
      exact min_le_right _ _
    unfold dmusicpak_get_audio_chunk
    rw [if_neg (by simp [h])]
    rw [if_neg (by omega)]
    dsimp only
    rw [hmin, takeN_eq_take hle]
    exact ⟨rfl, rfl⟩

/-- Witness for C7 at the example scenario of the spec: offset equal to the
payload size (10) returns 0 bytes, not an error. -/
theorem C7_get_audio_chunk_witness :
    dmusicpak_get_audio_chunk aPackage 10 100 = (0, []) :=
  ((C7_get_audio_chunk aPackage 10 100 (by decide)).2.1) rfl (by decide)

/-! ## Streaming lemmas (claim C8) -/

theorem slicesAux_congr : ∀ (f g : Nat) (x : List Nat), x.length ≤ f → x.length ≤ g →
    slicesAux f x = slicesAux g x := by
  intro f
  induction f with
  | zero =>
    intro g x h1 h2
    have hx : x = [] := List.eq_nil_of_length_eq_zero (by omega)
    subst hx
    cases g <;> rfl
  | succ f ih =>
    intro g x h1 h2
    cases x with
    | nil => cases g <;> rfl
    | cons y ys =>
      cases g with
      | zero => simp at h2
      | succ g =>
        show (y :: ys).take 8192 :: slicesAux f ((y :: ys).drop 8192)
            = (y :: ys).take 8192 :: slicesAux g ((y :: ys).drop 8192)
        congr 1
        have hy1 : ((y :: ys).drop 8192).length ≤ f := by
          simp only [List.length_drop, List.length_cons] at *
          omega
        have hy2 : ((y :: ys).drop 8192).length ≤ g := by
          simp only [List.length_drop, List.length_cons] at *
          omega
        exact ih g _ hy1 hy2

theorem slicesAux_eq {f : Nat} {x : List Nat} (h : x.length ≤ f) :
    slicesAux f x = slices8192 x :=
  slicesAux_congr f x.length x h (Nat.le_refl _)

theorem slicesAux_nil (f : Nat) : slicesAux f [] = [] := by
  cases f <;> rfl

theorem slices8192_cons (l : List Nat) (h : l ≠ []) :
    slices8192 l = l.take 8192 :: slices8192 (l.drop 8192) := by
  unfold slices8192
  cases l with
  | nil => exact absurd rfl h
  | cons z zs =>
    show (z :: zs).take 8192 :: slicesAux zs.length ((z :: zs).drop 8192)
        = (z :: zs).take 8192 :: slicesAux ((z :: zs).drop 8192).length ((z :: zs).drop 8192)
    congr 1
    refine slicesAux_congr _ _ _ ?_ (Nat.le_refl _)
    simp only [List.length_drop, List.length_cons]
    omega

theorem streamLoop_full : ∀ (fuel : Nat) (payload : List Nat) (cb : List Nat → Nat),
    (∀ l, cb l = l.length) → ∀ off, payload.length - off ≤ fuel →
    streamLoop payload cb off fuel = slices8192 (payload.drop off) := by
  intro fuel
  induction fuel with
  | zero =>
    intro payload cb hcb off hf
    have hnil : payload.drop off = [] := List.drop_eq_nil_of_le (by omega)
    rw [hnil]
    rfl
  | succ fuel ih =>
    intro payload cb hcb off hf
    simp only [streamLoop]
    by_cases hoff : off < payload.length
    · rw [if_pos hoff]
      have hne : payload.drop off ≠ [] := by
        intro hx
        have := congrArg List.length hx
        simp at this
        omega
      rw [slices8192_cons (payload.drop off) hne]
      by_cases h8 : payload.length < off + 8192
      · rw [if_pos h8]
        have hslice : cb ((payload.drop off).take (payload.length - off))
            = payload.length - off := by
          rw [hcb, List.length_take, List.length_drop]
          omega
        rw [hslice, if_neg (by omega)]
        have hoff2 : off + (payload.length - off) = payload.length := by omega
        rw [hoff2]
        have hrec := ih payload cb hcb payload.length (by omega)
        rw [hrec, List.drop_length]
        have hdrop : (payload.drop off).drop 8192 = [] := by
          apply List.drop_eq_nil_of_le
          rw [List.length_drop]
          omega
        rw [hdrop]
        show [(payload.drop off).take (payload.length - off)]
            = [(payload.drop off).take 8192]
        have h1 : (payload.drop off).take (payload.length - off) = payload.drop off := by
          apply List.take_of_length_le
          rw [List.length_drop]
        have h2 : (payload.drop off).take 8192 = payload.drop off := by
          apply List.take_of_length_le
          rw [List.length_drop]
          omega
        rw [h1, h2]
      · rw [if_neg h8]
        have hslice : cb ((payload.drop off).take 8192) = 8192 := by
          rw [hcb, List.length_take, List.length_drop]
          omega
        rw [hslice, if_neg (by omega)]
        have hrec := ih payload cb hcb (off + 8192) (by omega)
        rw [hrec]
        have hdrop : (payload.drop off).drop 8192 = payload.drop (off + 8192) := by
          rw [List.drop_drop, Nat.add_comm]
        rw [hdrop]
    · rw [if_neg hoff]
      have hnil : payload.drop off = [] := List.drop_eq_nil_of_le (by omega)
      rw [hnil]
      rfl

theorem streamLoop_zero (payload : List Nat) (cb : List Nat → Nat)
    (hcb : ∀ l, cb l = 0) :
    streamLoop payload cb 0 payload.length = (slices8192 payload).take 1 := by
  cases hp : payload with
  | nil => rfl
  | cons z zs =>
    simp only [streamLoop, List.length_cons]
    rw [if_pos (by simp)]
    rw [hcb, if_pos rfl]
    rw [slices8192_cons (z :: zs) (by simp)]
    show [(z :: zs).take (if (z :: zs).length < 0 + 8192 then (z :: zs).length - 0 else 8192)]
        = [(z :: zs).take 8192]
    congr 1
    by_cases h8 : (z :: zs).length < 0 + 8192
    · rw [if_pos h8]
      have h1 : (z :: zs).take ((z :: zs).length - 0) = z :: zs := by
        apply List.take_of_length_le
        omega
      have h2 : (z :: zs).take 8192 = z :: zs := by
        apply List.take_of_length_le
        omega
      rw [h1, h2]
    · rw [if_neg h8]

/-- Claim C8 (corrected): stream_audio always returns success once an audio
section is present; a callback that consumes each slice fully receives the
entire payload as the consecutive 8192-byte partition (final slice shorter);
a callback that reports zero consumed stops the loop after the first slice.
(For callbacks that consume partially, the loop advances by the consumed
count, so the slices are not the 8192-byte partition — see the
counterexample.) -/
theorem C8_stream_audio (p : Package) (cb : List Nat → Nat)
    (ha : p.has_audio = true) :
    (dmusicpak_stream_audio p cb).1 = 0
    ∧ ((∀ l, cb l = l.length) → (dmusicpak_stream_audio p cb).2
        = slices8192 (takeN (p.audio.data.getD []) p.audio.size))
    ∧ ((∀ l, cb l = 0) → (dmusicpak_stream_audio p cb).2
        = (slices8192 (takeN (p.audio.data.getD []) p.audio.size)).take 1) := by
  unfold dmusicpak_stream_audio
  rw [if_neg (by simp [ha])]
  refine ⟨rfl, ?_, ?_⟩
  · intro hcb
    have hh := streamLoop_full (takeN (p.audio.data.getD []) p.audio.size).length
      (takeN (p.audio.data.getD []) p.audio.size) cb hcb 0 (by omega)
    simpa using hh
  · intro hcb
    exact streamLoop_zero _ cb hcb

/-- Witness for C8: a fully consuming callback on the 2-byte payload receives
exactly one slice holding the whole payload. -/
theorem C8_stream_audio_witness :
    (dmusicpak_stream_audio sPackage List.length).2 = [[10, 20]] := by
  have hh := (C8_stream_audio sPackage List.length rfl).2.1 (fun l => rfl)
  rw [hh]
  decide

/-- Counterexample for C8 as stated: a callback that always consumes one byte
never returns zero, yet the slices passed are not the 8192-byte partition of
the payload (the second call repeats the second byte), so the payload is not
passed to the callback as consecutive 8192-byte slices. -/
theorem C8_stream_audio_cex :
    (dmusicpak_stream_audio sPackage cbOne).2 = [[10, 20], [20]]
    ∧ ((dmusicpak_stream_audio sPackage cbOne).2).flatten ≠ [10, 20]
    ∧ slices8192 (takeN (sPackage.audio.data.getD []) sPackage.audio.size) = [[10, 20]]
    ∧ cbOne [10, 20] ≠ 0 ∧ cbOne [20] ≠ 0 := by
  refine ⟨by decide, by decide, by decide, by decide, by decide⟩

/-- Claim C10 (corrected): a lyrics chunk of declared length exactly 4, an
audio chunk whose declared length equals the bytes consumed by the filename
field (4 plus the filename length), and a cover chunk of declared length
exactly 12 each leave the presence flag of their section unchanged: decoding
such a chunk never makes the section present. (Starting from an absent
section it stays absent; but if an earlier chunk already made the section
present, the flag stays set while the size is overwritten to 0 — see the
counterexample.) -/
theorem C10_empty_chunk (d : List Nat) (off : Nat) (p : Package) :
    (applyChunk d off 4 2 p).has_lyrics = p.has_lyrics
    ∧ (applyChunk d off ((read_string d off).1) 3 p).has_audio = p.has_audio
    ∧ (applyChunk d off 12 4 p).has_cover = p.has_cover := by
  refine ⟨?_, ?_, ?_⟩
  · simp [applyChunk]
  · simp [applyChunk, Nat.add_sub_cancel_left, Nat.mod_self]
  · simp [applyChunk]

/-- Counterexample for C10 as stated: after a first lyrics chunk with a 1-byte
payload, a second lyrics chunk of declared length 4 leaves the package with
has_lyrics still true but lyrics.size overwritten to 0 — a present section
with a zero-length payload. -/
theorem C10_empty_chunk_cex :
    (dmusicpak_load_memory dupLyricsData dupLyricsData.length).map
        (fun q => (q.has_lyrics, q.lyrics.size)) = some (true, 0) := by
  decide

/-! ## Truncation lemmas (claim C3) -/

theorem byteAt_take_ext {B : List Nat} {k i : Nat} (ext : List Nat)
    (hik : i < k) (hkB : k ≤ B.length) :
    byteAt (B.take k ++ ext) i = byteAt B i := by
  unfold byteAt
  rw [List.getD_append _ _ _ _ (by rw [List.length_take]; omega)]
  rw [List.getD_eq_getElem?_getD, List.getD_eq_getElem?_getD,
    List.getElem?_take_of_lt hik]

theorem read_uint32_le_take_ext {B : List Nat} {k off : Nat} (ext : List Nat)
    (h4 : off + 4 ≤ k) (hkB : k ≤ B.length) :
    read_uint32_le (B.take k ++ ext) off = read_uint32_le B off := by
  unfold read_uint32_le
  rw [byteAt_take_ext ext (by omega) hkB, byteAt_take_ext ext (by omega) hkB,
    byteAt_take_ext ext (by omega) hkB, byteAt_take_ext ext (by omega) hkB]

theorem readChunks_stop_off {d : List Nat} {size off : Nat} (n : Nat) (q : Package)
    (h : ¬ off < size) : readChunks d size (n + 1) off q = q := by
  simp only [readChunks, if_neg h]

theorem readChunks_stop_hdr {d : List Nat} {size off : Nat} (n : Nat) (q : Package)
    (h1 : off < size) (h2 : off + 5 > size) : readChunks d size (n + 1) off q = q := by
  simp only [readChunks]
  rw [if_pos h1, if_pos h2]

theorem readChunks_stop_body {d : List Nat} {size off : Nat} (n : Nat) (q : Package)
    (h1 : off < size) (h2 : ¬ (off + 5 > size))
    (h3 : off + 5 + read_uint32_le d (off + 1) > size) :
    readChunks d size (n + 1) off q = q := by
  simp only [readChunks]
  rw [if_pos h1, if_neg h2, if_pos h3]

theorem sectBytes_shape (s : Sect) (hw : s.Wf) :
    ∃ t body : _, sectBytes s = t :: (write_uint32_le body.length ++ body)
      ∧ (sectBytes s).length = 5 + body.length ∧ body.length < 4294967296 := by
  cases s with
  | md m =>
    have hlen := write_metadata_chunk_length hw
    refine ⟨1, write_metadata_chunk m, ?_, ?_, ?_⟩
    · show metaChunkBytes m = _
      rw [metaChunkBytes, hlen]
    · show (metaChunkBytes m).length = _
      rw [metaChunkBytes_length hw, hlen]
    · rw [hlen]
      exact hw.2.2.2.2.2.2.1
  | ly l =>
    obtain ⟨hb, hd, hf⟩ := hw
    have hblen : (write_uint32_le l.format ++ takeN (l.data.getD []) l.size).length
        = 4 + l.size := by
      simp [length_write_uint32_le, takeN_length]
    refine ⟨2, write_uint32_le l.format ++ takeN (l.data.getD []) l.size, ?_, ?_, ?_⟩
    · show lyricsChunkBytes l = _
      rw [lyricsChunkBytes, hblen]
      simp [List.append_assoc]
    · show (lyricsChunkBytes l).length = _
      rw [lyricsChunkBytes_length, hblen]
    · rw [hblen]
      exact hb
  | au a =>
    obtain ⟨hb, hd⟩ := hw
    have hfn : optLen a.source_filename < 4294967296 := by omega
    have hblen : (write_string a.source_filename ++ takeN (a.data.getD []) a.size).length
        = 4 + optLen a.source_filename + a.size := by
      simp only [List.length_append, write_string_length hfn, takeN_length]
    refine ⟨3, write_string a.source_filename ++ takeN (a.data.getD []) a.size, ?_, ?_, ?_⟩
    · show audioChunkBytes a = _
      rw [audioChunkBytes, hblen]
      simp [List.append_assoc]
    · show (audioChunkBytes a).length = _
      rw [audioChunkBytes_length hfn, hblen]
    · rw [hblen]
      exact hb
  | cv c =>
    obtain ⟨hb, hd, hf, hwd, hht⟩ := hw
    have hblen : (write_uint32_le c.format ++ (write_uint32_le c.width
        ++ (write_uint32_le c.height ++ takeN (c.data.getD []) c.size))).length
        = 12 + c.size := by
      simp only [List.length_append, length_write_uint32_le, takeN_length]
      omega
    refine ⟨4, write_uint32_le c.format ++ (write_uint32_le c.width
      ++ (write_uint32_le c.height ++ takeN (c.data.getD []) c.size)), ?_, ?_, ?_⟩
    · show coverChunkBytes c = _
      rw [coverChunkBytes, hblen]
      simp [List.append_assoc]
    · show (coverChunkBytes c).length = _
      rw [coverChunkBytes_length, hblen]
    · rw [hblen]
      exact hb

theorem readChunks_trunc : ∀ (ss : List Sect) (pre : List Nat) (q : Package)
    (k : Nat) (ext : List Nat), (∀ s ∈ ss, s.Wf) → k ≤ (pre ++ joinBytes ss).length →
    readChunks ((pre ++ joinBytes ss).take k ++ ext) k ss.length pre.length q
      = (fitSects k pre.length ss).foldl (fun p s => sectDecode s p) q := by
  intro ss
  induction ss with
  | nil => intro pre q k ext hw hk; rfl
  | cons s ss ih =>
    intro pre q k ext hw hk
    have hws : s.Wf := hw s (by simp)
    have hwss : ∀ t ∈ ss, t.Wf := fun t ht => hw t (by simp [ht])
    have hklen : k ≤ (pre ++ (sectBytes s ++ joinBytes ss)).length := by
      rw [joinBytes_cons] at hk
      exact hk
    rw [List.length_cons]
    by_cases hfit : pre.length + (sectBytes s).length ≤ k
    · have hcommon : (pre ++ joinBytes (s :: ss)).take k ++ ext
          = pre ++ (sectBytes s ++ ((joinBytes ss).take
              (k - (pre.length + (sectBytes s).length)) ++ ext)) := by
        rw [joinBytes_cons, ← List.append_assoc, List.take_append_eq_append_take,
          List.take_of_length_le (by rw [List.length_append]; omega)]
        simp [List.append_assoc, List.length_append]
      rw [hcommon,
        readChunks_step pre _ s hws k ss.length q hfit]
      have hIH := ih (pre ++ sectBytes s) (sectDecode s q) k ext hwss
        (by rw [List.append_assoc]; exact hklen)
      have hcommon2 : ((pre ++ sectBytes s) ++ joinBytes ss).take k ++ ext
          = pre ++ (sectBytes s ++ ((joinBytes ss).take
              (k - (pre.length + (sectBytes s).length)) ++ ext)) := by
        rw [List.take_append_eq_append_take,
          List.take_of_length_le (by rw [List.length_append]; omega)]
        simp [List.append_assoc, List.length_append]
      rw [hcommon2, List.length_append] at hIH
      rw [hIH]
      simp only [fitSects, if_pos hfit, List.foldl]
    · have hRHS : fitSects k pre.length (s :: ss) = [] := by
        simp only [fitSects, if_neg hfit]
      rw [hRHS]
      show readChunks ((pre ++ joinBytes (s :: ss)).take k ++ ext) k (ss.length + 1)
          pre.length q = q
      rcases Nat.lt_or_ge pre.length k with hpk | hpk
      · by_cases h5 : pre.length + 5 > k
        · exact readChunks_stop_hdr ss.length q hpk h5
        · obtain ⟨t, body, hshape, hslen, hbb⟩ := sectBytes_shape s hws
          have hcs : read_uint32_le ((pre ++ joinBytes (s :: ss)).take k ++ ext)
              (pre.length + 1) = body.length := by
            rw [read_uint32_le_take_ext ext (by omega) (by rw [joinBytes_cons]; exact hklen)]
            rw [joinBytes_cons, hshape]
            have hh := read_uint32_le_after (pre ++ [t]) (body ++ joinBytes ss) body.length
            rw [Nat.mod_eq_of_lt hbb] at hh
            simpa only [List.append_assoc, List.cons_append, List.nil_append,
              List.length_append, List.length_cons, List.length_nil, Nat.zero_add] using hh
          apply readChunks_stop_body ss.length q hpk h5
          rw [hcs]
          omega
      · exact readChunks_stop_off ss.length q (by omega)

/-! ## Presence flags of a decode fold -/

theorem foldl_has_metadata (ss : List Sect) : ∀ q : Package,
    (ss.foldl (fun p s => sectDecode s p) q).has_metadata
      = (q.has_metadata || ss.any isMd) := by
  induction ss with
  | nil => intro q; simp
  | cons s ss ih =>
    intro q
    rw [List.foldl_cons, ih, List.any_cons]
    cases s with
    | md m => simp [sectDecode, isMd]
    | ly l => by_cases hp : 0 < l.size <;> simp [sectDecode, isMd, hp]
    | au a => by_cases hp : 0 < a.size <;> simp [sectDecode, isMd, hp]
    | cv c => by_cases hp : 0 < c.size <;> simp [sectDecode, isMd, hp]

theorem foldl_has_lyrics (ss : List Sect) : ∀ q : Package,
    (ss.foldl (fun p s => sectDecode s p) q).has_lyrics
      = (q.has_lyrics || ss.any isLyPos) := by
  induction ss with
  | nil => intro q; simp
  | cons s ss ih =>
    intro q
    rw [List.foldl_cons, ih, List.any_cons]
    cases s with
    | md m => simp [sectDecode, isLyPos]
    | ly l => by_cases hp : 0 < l.size <;> simp [sectDecode, isLyPos, hp]
    | au a => by_cases hp : 0 < a.size <;> simp [sectDecode, isLyPos, hp]
    | cv c => by_cases hp : 0 < c.size <;> simp [sectDecode, isLyPos, hp]

theorem foldl_has_audio (ss : List Sect) : ∀ q : Package,
    (ss.foldl (fun p s => sectDecode s p) q).has_audio
      = (q.has_audio || ss.any isAuPos) := by
  induction ss with
  | nil => intro q; simp
  | cons s ss ih =>
    intro q
    rw [List.foldl_cons, ih, List.any_cons]
    cases s with
    | md m => simp [sectDecode, isAuPos]
    | ly l => by_cases hp : 0 < l.size <;> simp [sectDecode, isAuPos, hp]
    | au a => by_cases hp : 0 < a.size <;> simp [sectDecode, isAuPos, hp]
    | cv c => by_cases hp : 0 < c.size <;> simp [sectDecode, isAuPos, hp]

theorem foldl_has_cover (ss : List Sect) : ∀ q : Package,
    (ss.foldl (fun p s => sectDecode s p) q).has_cover
      = (q.has_cover || ss.any isCvPos) := by
  induction ss with
  | nil => intro q; simp
  | cons s ss ih =>
    intro q
    rw [List.foldl_cons, ih, List.any_cons]
    cases s with
    | md m => simp [sectDecode, isCvPos]
    | ly l => by_cases hp : 0 < l.size <;> simp [sectDecode, isCvPos, hp]
    | au a => by_cases hp : 0 < a.size <;> simp [sectDecode, isCvPos, hp]
    | cv c => by_cases hp : 0 < c.size <;> simp [sectDecode, isCvPos, hp]

theorem fitSects_mem : ∀ (ss : List Sect) (k off : Nat) (s : Sect),
    s ∈ fitSects k off ss → s ∈ ss := by
  intro ss
  induction ss with
  | nil => intro k off s hs; simp [fitSects] at hs
  | cons t ss ih =>
    intro k off s hs
    simp only [fitSects] at hs
    by_cases hfit : off + (sectBytes t).length ≤ k
    · rw [if_pos hfit] at hs
      rcases List.mem_cons.1 hs with h | h
      · simp [h]
      · simp [ih k _ s h]
    · rw [if_neg hfit] at hs
      simp at hs

theorem mem_sectsOf_ly {p : Package} {l : Lyrics} (h : Sect.ly l ∈ sectsOf p) :
    p.has_lyrics = true ∧ l = p.lyrics := by
  simp only [sectsOf, List.mem_append] at h
  rcases h with ((h | h) | h) | h
  · cases hb : p.has_metadata <;> rw [hb] at h <;> simp at h
  · cases hb : p.has_lyrics
    · rw [hb] at h
      simp at h
    · rw [hb] at h
      simp at h
      exact ⟨rfl, h⟩
  · cases hb : p.has_audio <;> rw [hb] at h <;> simp at h
  · cases hb : p.has_cover <;> rw [hb] at h <;> simp at h

theorem mem_sectsOf_au {p : Package} {a : Audio} (h : Sect.au a ∈ sectsOf p) :
    p.has_audio = true ∧ a = p.audio := by
  simp only [sectsOf, List.mem_append] at h
  rcases h with ((h | h) | h) | h
  · cases hb : p.has_metadata <;> rw [hb] at h <;> simp at h
  · cases hb : p.has_lyrics <;> rw [hb] at h <;> simp at h
  · cases hb : p.has_audio
    · rw [hb] at h
      simp at h
    · rw [hb] at h
      simp at h
      exact ⟨rfl, h⟩
  · cases hb : p.has_cover <;> rw [hb] at h <;> simp at h

theorem mem_sectsOf_cv {p : Package} {c : Cover} (h : Sect.cv c ∈ sectsOf p) :
    p.has_cover = true ∧ c = p.cover := by
  simp only [sectsOf, List.mem_append] at h
  rcases h with ((h | h) | h) | h
  · cases hb : p.has_metadata <;> rw [hb] at h <;> simp at h
  · cases hb : p.has_lyrics <;> rw [hb] at h <;> simp at h
  · cases hb : p.has_audio <;> rw [hb] at h <;> simp at h
  · cases hb : p.has_cover
    · rw [hb] at h
      simp at h
    · rw [hb] at h
      simp at h
      exact ⟨rfl, h⟩

theorem any_congr_of_mem {l : List Sect} {f g : Sect → Bool}
    (h : ∀ s ∈ l, f s = g s) : l.any f = l.any g := by
  induction l with
  | nil => rfl
  | cons s t ih =>
    rw [List.any_cons, List.any_cons, h s (by simp), ih (fun x hx => h x (by simp [hx]))]

/-- Claim C3 (corrected): for a well-formed package with nonempty present
payloads, truncating its encoding to any k with 12 ≤ k < length and appending
arbitrary bytes beyond index k leaves the decode result unchanged (so no byte
at index ≥ k is ever used), and the decoded package is exactly the fold of
the maximal prefix of sections whose chunks lie entirely within the first k
bytes; its presence flags mark exactly the section kinds in that prefix. -/
theorem C3_truncation (p : Package) (hw : WfPackage p) (hne : NonemptyPayloads p)
    (k : Nat) (h12 : 12 ≤ k) (hk : k < (dmusicpak_save_memory p).length)
    (ext : List Nat) :
    dmusicpak_load_memory ((dmusicpak_save_memory p).take k ++ ext) k
      = some (truncExpected p k)
    ∧ (truncExpected p k).has_metadata = (fitSects k 12 (sectsOf p)).any isMd
    ∧ (truncExpected p k).has_lyrics = (fitSects k 12 (sectsOf p)).any isLy
    ∧ (truncExpected p k).has_audio = (fitSects k 12 (sectsOf p)).any isAu
    ∧ (truncExpected p k).has_cover = (fitSects k 12 (sectsOf p)).any isCv := by
  have hN := numChunks_lt p
  obtain ⟨nl, na, nc⟩ := hne
  have hsplit : dmusicpak_save_memory p
      = ([68, 77, 80, 75] ++ (write_uint32_le 1 ++ write_uint32_le (numChunks p)))
        ++ joinBytes (sectsOf p) := by
    rw [save_eq_sects p]
    simp [List.append_assoc]
  have hpre : ([68, 77, 80, 75]
      ++ (write_uint32_le 1 ++ write_uint32_le (numChunks p))).length = 12 := by
    simp [length_write_uint32_le]
  have hkB : k ≤ (dmusicpak_save_memory p).length := Nat.le_of_lt hk
  constructor
  · have hmg0 : byteAt ((dmusicpak_save_memory p).take k ++ ext) 0 = 68 := by
      rw [byteAt_take_ext ext (by omega) hkB, save_eq_sects p]
      rfl
    have hmg1 : byteAt ((dmusicpak_save_memory p).take k ++ ext) 1 = 77 := by
      rw [byteAt_take_ext ext (by omega) hkB, save_eq_sects p]
      rfl
    have hmg2 : byteAt ((dmusicpak_save_memory p).take k ++ ext) 2 = 80 := by
      rw [byteAt_take_ext ext (by omega) hkB, save_eq_sects p]
      rfl
    have hmg3 : byteAt ((dmusicpak_save_memory p).take k ++ ext) 3 = 75 := by
      rw [byteAt_take_ext ext (by omega) hkB, save_eq_sects p]
      rfl
    have hver : read_uint32_le ((dmusicpak_save_memory p).take k ++ ext) 4 = 1 := by
      rw [read_uint32_le_take_ext ext (by omega) hkB, save_eq_sects p]
      simpa using read_uint32_le_after [68, 77, 80, 75]
        (write_uint32_le (numChunks p) ++ joinBytes (sectsOf p)) 1
    have hcnt : read_uint32_le ((dmusicpak_save_memory p).take k ++ ext) 8
        = numChunks p := by
      rw [read_uint32_le_take_ext ext (by omega) hkB, save_eq_sects p]
      have hh := read_uint32_le_after ([68, 77, 80, 75] ++ write_uint32_le 1)
        (joinBytes (sectsOf p)) (numChunks p)
      rw [Nat.mod_eq_of_lt hN] at hh
      simpa [List.append_assoc, length_write_uint32_le] using hh
    unfold dmusicpak_load_memory
    rw [if_neg (by omega), if_pos ⟨hmg0, hmg1, hmg2, hmg3⟩, if_pos hver, hcnt,
      numChunks_eq p]
    congr 1
    have htr := readChunks_trunc (sectsOf p)
      ([68, 77, 80, 75] ++ (write_uint32_le 1 ++ write_uint32_le (numChunks p)))
      dmusicpak_create k ext (sectsOf_wf hw) (by rw [← hsplit]; exact hkB)
    rw [hpre, ← hsplit] at htr
    exact htr
  · have hly : ∀ s ∈ fitSects k 12 (sectsOf p), isLyPos s = isLy s := by
      intro s hs
      have hmem := fitSects_mem (sectsOf p) k 12 s hs
      cases s with
      | md m => rfl
      | ly l =>
        obtain ⟨hf, hl⟩ := mem_sectsOf_ly hmem
        simp [isLyPos, isLy, hl, nl hf]
      | au a => rfl
      | cv c => rfl
    have hau : ∀ s ∈ fitSects k 12 (sectsOf p), isAuPos s = isAu s := by
      intro s hs
      have hmem := fitSects_mem (sectsOf p) k 12 s hs
      cases s with
      | md m => rfl
      | ly l => rfl
      | au a =>
        obtain ⟨hf, hl⟩ := mem_sectsOf_au hmem
        simp [isAuPos, isAu, hl, na hf]
      | cv c => rfl
    have hcv : ∀ s ∈ fitSects k 12 (sectsOf p), isCvPos s = isCv s := by
      intro s hs
      have hmem := fitSects_mem (sectsOf p) k 12 s hs
      cases s with
      | md m => rfl
      | ly l => rfl
      | au a => rfl
      | cv c =>
        obtain ⟨hf, hl⟩ := mem_sectsOf_cv hmem
        simp [isCvPos, isCv, hl, nc hf]
    refine ⟨?_, ?_, ?_, ?_⟩
    · rw [truncExpected, foldl_has_metadata]
      rfl
    · rw [truncExpected, foldl_has_lyrics, any_congr_of_mem hly]
      rfl
    · rw [truncExpected, foldl_has_audio, any_congr_of_mem hau]
      rfl
    · rw [truncExpected, foldl_has_cover, any_congr_of_mem hcv]
      rfl

/-- Witness for C3: the two-section package truncated one byte short of the
end (with junk appended) decodes to the lyrics-only expected package. -/
theorem C3_truncation_witness :
    dmusicpak_load_memory ((dmusicpak_save_memory tPackage).take 39 ++ [99]) 39
      = some (truncExpected tPackage 39) :=
  (C3_truncation tPackage (by decide) (by decide) 39 (by decide) (by decide) [99]).1

/-- Counterexample for C3 as stated: truncating below the 12-byte header
returns no package at all, and a fully contained empty-payload lyrics chunk
still leaves the lyrics section absent. -/
theorem C3_truncation_cex :
    dmusicpak_load_memory ((dmusicpak_save_memory tPackage).take 11) 11 = none
    ∧ zPackage.has_lyrics = true
    ∧ 12 + (lyricsChunkBytes zPackage.lyrics).length ≤ 38
    ∧ (dmusicpak_load_memory ((dmusicpak_save_memory zPackage).take 38) 38).map
        (fun q => q.has_lyrics) = some false := by
  refine ⟨by decide, by decide, by decide, by decide⟩

/-! ## Offset-translation lemmas (claim C9): the chunk loop reads only at or
after its current offset, so prepending bytes and shifting offset and size
together does not change its result. -/

theorem read_uint32_le_shift (A d : List Nat) (off : Nat) :
    read_uint32_le (A ++ d) (A.length + off) = read_uint32_le d off := by
  simp only [read_uint32_le, Nat.add_assoc, byteAt_append_right]

theorem read_uint16_le_shift (A d : List Nat) (off : Nat) :
    read_uint16_le (A ++ d) (A.length + off) = read_uint16_le d off := by
  simp only [read_uint16_le, Nat.add_assoc, byteAt_append_right]

theorem bytesAt_shift (A d : List Nat) : ∀ (n off : Nat),
    bytesAt (A ++ d) (A.length + off) n = bytesAt d off n := by
  intro n
  induction n with
  | zero => intro off; rfl
  | succ n ih =>
    intro off
    show byteAt (A ++ d) (A.length + off) :: bytesAt (A ++ d) (A.length + off + 1) n
        = byteAt d off :: bytesAt d (off + 1) n
    rw [byteAt_append_right,
      show A.length + off + 1 = A.length + (off + 1) from by omega, ih]

theorem read_string_shift (A d : List Nat) (off : Nat) :
    read_string (A ++ d) (A.length + off) = read_string d off := by
  simp only [read_string, read_uint32_le_shift, Nat.add_assoc, bytesAt_shift]

theorem read_metadata_chunk_shift (A d : List Nat) (off : Nat) :
    read_metadata_chunk (A ++ d) (A.length + off) = read_metadata_chunk d off := by
  simp only [read_metadata_chunk, Nat.add_assoc, read_string_shift,
    read_uint32_le_shift, read_uint16_le_shift]

theorem applyChunk_shift (A d : List Nat) (off cs ct : Nat) (q : Package) :
    applyChunk (A ++ d) (A.length + off) cs ct q = applyChunk d off cs ct q := by
  simp only [applyChunk, Nat.add_assoc, read_uint32_le_shift, read_string_shift,
    bytesAt_shift, read_metadata_chunk_shift]

theorem readChunks_shift : ∀ (n : Nat) (A d : List Nat) (s off : Nat) (q : Package),
    readChunks (A ++ d) (A.length + s) n (A.length + off) q
      = readChunks d s n off q := by
  intro n
  induction n with
  | zero => intro A d s off q; rfl
  | succ n ih =>
    intro A d s off q
    simp only [readChunks]
    by_cases h1 : off < s
    · rw [if_pos (by omega), if_pos h1]
      by_cases h2 : off + 5 > s
      · rw [if_pos (by omega), if_pos h2]
      · rw [if_neg (by omega), if_neg h2, byteAt_append_right]
        have hcs : read_uint32_le (A ++ d) (A.length + off + 1)
            = read_uint32_le d (off + 1) := by
          rw [show A.length + off + 1 = A.length + (off + 1) from by omega,
            read_uint32_le_shift]
        rw [hcs]
        by_cases h3 : off + 5 + read_uint32_le d (off + 1) > s
        · rw [if_pos (by omega), if_pos h3]
        · rw [if_neg (by omega), if_neg h3]
          have happ : applyChunk (A ++ d) (A.length + off + 5)
              (read_uint32_le d (off + 1)) (byteAt d off) q
              = applyChunk d (off + 5) (read_uint32_le d (off + 1)) (byteAt d off) q := by
            rw [show A.length + off + 5 = A.length + (off + 5) from by omega,
              applyChunk_shift]
          rw [happ,
            show A.length + off + 5 + read_uint32_le d (off + 1)
              = A.length + (off + 5 + read_uint32_le d (off + 1)) from by omega]
          exact ih A d s _ _
    · rw [if_neg (by omega), if_neg h1]

/-- Claim C9 (confirmed): a chunk whose type byte is none of 1,2,3,4 and whose
declared length fits within the buffer is skipped: its declared bytes are
consumed, the package under construction is untouched, and the remaining
chunks decode exactly as they would in a buffer without the unknown chunk
(same remaining iteration count, same offset, size reduced by the skipped
bytes). -/
theorem C9_unknown_chunk_skipped (pre body rest : List Nat) (t szr n : Nat)
    (q : Package) (ht : ¬ (t = 1 ∨ t = 2 ∨ t = 3 ∨ t = 4))
    (hL : body.length < 4294967296) :
    readChunks (pre ++ (t :: (write_uint32_le body.length ++ (body ++ rest))))
        (pre.length + 5 + body.length + szr) (n + 1) pre.length q
      = readChunks (pre ++ rest) (pre.length + szr) n pre.length q := by
  have hct : byteAt (pre ++ (t :: (write_uint32_le body.length ++ (body ++ rest))))
      pre.length = t := byteAt_head pre t _
  have hcs : read_uint32_le (pre ++ (t :: (write_uint32_le body.length ++ (body ++ rest))))
      (pre.length + 1) = body.length := by
    have hh := read_uint32_le_after (pre ++ [t]) (body ++ rest) body.length
    rw [Nat.mod_eq_of_lt hL] at hh
    simpa only [List.append_assoc, List.cons_append, List.nil_append,
      List.length_append, List.length_cons, List.length_nil, Nat.zero_add] using hh
  simp only [readChunks]
  rw [if_pos (by omega), if_neg (by omega), hct, hcs, if_neg (by omega)]
  have ht1 : ¬ (t = 1) := fun h => ht (Or.inl h)
  have ht2 : ¬ (t = 2) := fun h => ht (Or.inr (Or.inl h))
  have ht3 : ¬ (t = 3) := fun h => ht (Or.inr (Or.inr (Or.inl h)))
  have ht4 : ¬ (t = 4) := fun h => ht (Or.inr (Or.inr (Or.inr h)))
  have happ : applyChunk (pre ++ (t :: (write_uint32_le body.length ++ (body ++ rest))))
      (pre.length + 5) body.length t q = q := by
    simp only [applyChunk]
    rw [if_neg ht1, if_neg ht2, if_neg ht3, if_neg ht4]
  rw [happ]
  have hPlen : (pre ++ (t :: (write_uint32_le body.length ++ body))).length
      = pre.length + 5 + body.length := by
    simp only [List.length_append, List.length_cons, length_write_uint32_le]
    omega
  have hL1 := readChunks_shift n (pre ++ (t :: (write_uint32_le body.length ++ body)))
    rest szr 0 q
  rw [hPlen] at hL1
  have hbuf : (pre ++ (t :: (write_uint32_le body.length ++ body))) ++ rest
      = pre ++ (t :: (write_uint32_le body.length ++ (body ++ rest))) := by
    simp [List.append_assoc]
  rw [hbuf] at hL1
  simp only [Nat.add_zero] at hL1
  have hL2 := readChunks_shift n pre rest szr 0 q
  simp only [Nat.add_zero] at hL2
  rw [hL1, hL2]

/-- Witness for C9: a one-byte chunk of unknown type 0x7F is consumed and the
decode continues as on the empty remainder. -/
theorem C9_unknown_chunk_skipped_witness :
    readChunks (([] : List Nat)
        ++ (127 :: (write_uint32_le ([9] : List Nat).length ++ ([9] ++ ([] : List Nat)))))
        (([] : List Nat).length + 5 + ([9] : List Nat).length + 0) (0 + 1)
        ([] : List Nat).length dmusicpak_create
      = readChunks (([] : List Nat) ++ ([] : List Nat))
          (([] : List Nat).length + 0) 0 ([] : List Nat).length dmusicpak_create :=
  C9_unknown_chunk_skipped [] [9] [] 127 0 0 dmusicpak_create (by decide) (by decide)

end DMusicPak
